import Mathlib

/-!
Verification of the chat acquisition and normalization engine of the
iina-youtube-chat plugin.

The TypeScript sources are embedded shallowly:

* JavaScript numbers are modelled exactly: integers as `Int`/`Nat` and
  quantities produced by division (timestamps in seconds, segment widths)
  as `ℚ`.  The `>>> 0` reinterpretation is modelled as `% 2 ^ 32`.
* Optional fields (`x?: T`) become `Option T`; JavaScript truthiness of a
  string (`if (s)`) becomes `s ≠ ""` and of an optional string the
  combination of the two (`jsTruthy`).
* Fallible operations return `Option`/sum types mirroring the
  `{ success: ...; error?: string }` result shapes of the source.
* `JSON.parse` is modelled by an executable recursive-descent parser
  (`Json.parse` below); string escapes are handled lexically (a backslash
  always consumes the following character), matching the string-aware
  scanner in `ArchivedChatFetcher.rawDecode` and standard JSON string
  bracketing for every input that is valid JSON.
-/

namespace Schemas

/-- `MessageType` from src/plugin/schemas.ts: the closed six-variant set. -/
inductive MessageType where
  | text
  | superchat
  | supersticker
  | membership
  | gift
  | system
deriving DecidableEq, Repr

/-- `BadgeType` from src/plugin/schemas.ts. -/
inductive BadgeType where
  | verified
  | owner
  | moderator
  | member
deriving DecidableEq, Repr

/-- `AuthorBadge` from src/plugin/schemas.ts. -/
structure AuthorBadge where
  type : BadgeType
  label : String
  customIcon : Option String
deriving DecidableEq, Repr

/-- `MessageEmoji` from src/plugin/schemas.ts. -/
structure MessageEmoji where
  emojiId : String
  shortcut : Option String
  imageUrl : Option String
  isCustom : Option Bool
deriving DecidableEq, Repr

/-- `MessageRun` from src/plugin/schemas.ts: a text or emoji segment. -/
inductive MessageRun where
  | text (text : String)
  | emoji (emoji : MessageEmoji)
deriving DecidableEq, Repr

/-- `SuperChatColors` from src/plugin/schemas.ts. -/
structure SuperChatColors where
  headerBackgroundColor : Option String
  headerTextColor : Option String
  bodyBackgroundColor : Option String
  bodyTextColor : Option String
  authorNameTextColor : Option String
deriving DecidableEq, Repr

/-- `ChatMessage` from src/plugin/schemas.ts (output unit).  The
`timestamp` (floating-point seconds in the source) is modelled as `ℚ`. -/
structure ChatMessage where
  id : String
  type : MessageType
  timestamp : ℚ
  author : String
  authorPhoto : Option String := none
  authorChannelId : Option String := none
  authorBadges : Option (List AuthorBadge) := none
  message : String
  messageRuns : Option (List MessageRun) := none
  timestampText : Option String := none
  amount : Option String := none
  colors : Option SuperChatColors := none
  stickerUrl : Option String := none
  membershipMonths : Option ℚ := none
  membershipLevel : Option String := none
  giftCount : Option ℚ := none
deriving DecidableEq, Repr

end Schemas

namespace ArchivedChatFetcher

open Schemas

/-- `Thumbnail` input shape: `{ url: string; width?: number; height?: number }`. -/
structure Thumbnail where
  url : String
  width : Option Int := none
  height : Option Int := none
deriving DecidableEq, Repr

/-- Emoji payload of `MessageRunYT`. -/
structure EmojiYT where
  emojiId : Option String := none
  shortcuts : Option (List String) := none
  imageThumbnails : Option (List Thumbnail) := none
  isCustomEmoji : Option Bool := none
deriving DecidableEq, Repr

/-- `MessageRunYT` input shape: `{ text?: string; emoji?: {...} }`. -/
structure MessageRunYT where
  text : Option String := none
  emoji : Option EmojiYT := none
deriving DecidableEq, Repr

/-- The `liveChatAuthorBadgeRenderer` payload of `AuthorBadgeYT`. -/
structure AuthorBadgeRendererYT where
  iconType : Option String := none
  tooltip : Option String := none
  customThumbnail : Option (List Thumbnail) := none
deriving DecidableEq, Repr

/-- `AuthorBadgeYT` input shape. -/
structure AuthorBadgeYT where
  liveChatAuthorBadgeRenderer : AuthorBadgeRendererYT
deriving DecidableEq, Repr

/-- `LiveChatRenderer` (text message renderer input shape). -/
structure LiveChatRenderer where
  id : String
  message : Option (List MessageRunYT) := none
  authorName : Option String := none
  authorPhoto : Option (List Thumbnail) := none
  authorExternalChannelId : Option String := none
  authorBadges : Option (List AuthorBadgeYT) := none
  timestampUsec : Option String := none
  timestampText : Option String := none
deriving DecidableEq, Repr

/-- `LiveChatPaidRenderer` (paid message renderer input shape). -/
structure LiveChatPaidRenderer where
  id : String
  message : Option (List MessageRunYT) := none
  authorName : Option String := none
  authorPhoto : Option (List Thumbnail) := none
  authorExternalChannelId : Option String := none
  authorBadges : Option (List AuthorBadgeYT) := none
  timestampUsec : Option String := none
  timestampText : Option String := none
  purchaseAmountText : Option String := none
  headerBackgroundColor : Option Int := none
  headerTextColor : Option Int := none
  bodyBackgroundColor : Option Int := none
  bodyTextColor : Option Int := none
  authorNameTextColor : Option Int := none
deriving DecidableEq, Repr

/-- `LiveChatStickerRenderer` (paid sticker renderer input shape). -/
structure LiveChatStickerRenderer where
  id : String
  authorName : Option String := none
  authorPhoto : Option (List Thumbnail) := none
  authorExternalChannelId : Option String := none
  authorBadges : Option (List AuthorBadgeYT) := none
  timestampUsec : Option String := none
  timestampText : Option String := none
  purchaseAmountText : Option String := none
  sticker : Option (List Thumbnail) := none
  backgroundColor : Option Int := none
  authorNameTextColor : Option Int := none
deriving DecidableEq, Repr

/-- `LiveChatMembershipRenderer` (membership renderer input shape). -/
structure LiveChatMembershipRenderer where
  id : String
  authorName : Option String := none
  authorPhoto : Option (List Thumbnail) := none
  authorExternalChannelId : Option String := none
  authorBadges : Option (List AuthorBadgeYT) := none
  timestampUsec : Option String := none
  timestampText : Option String := none
  headerSubtext : Option (List MessageRunYT) := none
  message : Option (List MessageRunYT) := none
deriving DecidableEq, Repr

/-- `LiveChatGiftRenderer` (gift purchase announcement input shape);
`headerPrimaryTextRuns` is the nested
`header.liveChatSponsorshipsHeaderRenderer.primaryText.runs` path. -/
structure LiveChatGiftRenderer where
  id : String
  authorName : Option String := none
  authorPhoto : Option (List Thumbnail) := none
  authorExternalChannelId : Option String := none
  timestampUsec : Option String := none
  timestampText : Option String := none
  headerPrimaryTextRuns : Option (List MessageRunYT) := none
deriving DecidableEq, Repr

/-- `LiveChatEngagementRenderer` (viewer engagement renderer input shape). -/
structure LiveChatEngagementRenderer where
  id : String
  message : Option (List MessageRunYT) := none
deriving DecidableEq, Repr

/-- `ChatItem`: at most one of the six renderer shapes present. -/
structure ChatItem where
  liveChatTextMessageRenderer : Option LiveChatRenderer := none
  liveChatPaidMessageRenderer : Option LiveChatPaidRenderer := none
  liveChatPaidStickerRenderer : Option LiveChatStickerRenderer := none
  liveChatMembershipItemRenderer : Option LiveChatMembershipRenderer := none
  liveChatSponsorshipsGiftPurchaseAnnouncementRenderer : Option LiveChatGiftRenderer := none
  liveChatViewerEngagementMessageRenderer : Option LiveChatEngagementRenderer := none
deriving DecidableEq, Repr

/-- JavaScript truthiness of an optional string: present and non-empty. -/
def jsTruthy : Option String → Bool
  | none => false
  | some s => s ≠ ""

/-- JavaScript `a || b` on an optional string with a string default. -/
def jsOr (a : Option String) (b : String) : String :=
  match a with
  | none => b
  | some s => if s = "" then b else s

/-- JavaScript `a || b` where the default is itself optional
(used for `headerText || undefined`). -/
def jsOrOpt (a : String) : Option String :=
  if a = "" then none else some a

/-- `parseMessageRuns` (src/plugin/archivedChatFetcher.ts:1070-1097):
flattens YouTube runs into plain text plus normalized rich runs.  For a
text run the literal is appended when truthy; for an emoji run the first
shortcut (falling back to the raw emoji id) is appended. -/
def parseMessageRuns : Option (List MessageRunYT) → String × List MessageRun
  | none => ("", [])
  | some [] => ("", [])
  | some runs => go runs "" []
where
  go : List MessageRunYT → String → List MessageRun → String × List MessageRun
  | [], text, acc => (text, acc.reverse)
  | run :: rest, text, acc =>
    if jsTruthy run.text then
      go rest (text ++ run.text.getD "") (MessageRun.text (run.text.getD "") :: acc)
    else
      match run.emoji with
      | some e =>
        let emojiId := jsOr e.emojiId ""
        let shortcut := (e.shortcuts.getD []).head?
        let imageUrl := ((e.imageThumbnails.getD []).head?).map Thumbnail.url
        let isCustom := e.isCustomEmoji
        go rest (text ++ jsOr shortcut emojiId)
          (MessageRun.emoji ⟨emojiId, shortcut, imageUrl, isCustom⟩ :: acc)
      | none => go rest text acc

/-- `getBestThumbnail` (src/plugin/archivedChatFetcher.ts:1133-1137):
sort a copy descending by `width || 0` (stable sort, as guaranteed by
ECMAScript) and take the first entry's url. -/
def getBestThumbnail : Option (List Thumbnail) → Option String
  | none => none
  | some [] => none
  | some thumbnails =>
    let sorted := thumbnails.mergeSort fun a b => (b.width.getD 0) ≤ (a.width.getD 0)
    sorted.head?.map Thumbnail.url

/-- `parseAuthorBadges` (src/plugin/archivedChatFetcher.ts:1099-1131). -/
def parseAuthorBadges : Option (List AuthorBadgeYT) → Option (List AuthorBadge)
  | none => none
  | some [] => none
  | some badges =>
    let result := badges.foldl (fun acc badge =>
      let renderer := badge.liveChatAuthorBadgeRenderer
      let iconType := renderer.iconType.map String.toLower
      let tooltip := renderer.tooltip.getD ""
      let badgeType : Option BadgeType :=
        if iconType = some "verified" then some .verified
        else if iconType = some "owner" then some .owner
        else if iconType = some "moderator" then some .moderator
        else if iconType = some "member" ∨ renderer.customThumbnail.isSome then some .member
        else none
      match badgeType with
      | some bt => acc ++ [AuthorBadge.mk bt tooltip (getBestThumbnail renderer.customThumbnail)]
      | none => acc) []
    if result.length > 0 then some result else none

/-- Lowercase hexadecimal digit-character rendering of a natural number, as
produced by JavaScript `Number.prototype.toString(16)` for a non-negative
integer (most significant digit first, no leading zeros, `"0"` for zero). -/
def natToHex (n : Nat) : List Char :=
  if n = 0 then ['0']
  else ((Nat.digits 16 n).map Nat.digitChar).reverse

/-- `String.prototype.padStart(8, "0")`, at the character-list level. -/
def padStart8 (s : List Char) : List Char :=
  List.replicate (8 - s.length) '0' ++ s

/-- `colorToHex` (src/plugin/archivedChatFetcher.ts:1139-1146): reinterpret
the signed color as unsigned 32-bit (`>>> 0`, i.e. modulo `2 ^ 32`), render
as 8 lowercase hex digits, and move the leading alpha byte to the back.
The string slices `hex.slice(0, 2)` / `hex.slice(2)` are `take 2` /
`drop 2` on the character list. -/
def colorToHex : Option Int → Option String
  | none => none
  | some colorNum =>
    let unsigned : Nat := (colorNum % (2 ^ 32 : Int)).toNat
    let hex := padStart8 (natToHex unsigned)
    let a := hex.take 2
    let rgb := hex.drop 2
    some ("#" ++ String.mk rgb ++ String.mk a)

/-- Fixed-width little-endian base-16 digit expansion (digit `i` of the
result is `m / 16 ^ i % 16`); used to state the specification reading of
`colorToHex` independently of string padding and slicing. -/
def hexDigitsFixed : Nat → Nat → List Nat
  | 0, _ => []
  | w + 1, m => m % 16 :: hexDigitsFixed w (m / 16)

/-- The color conversion as the spec words it: reinterpret as unsigned
32-bit, render as 8 lowercase hex digits, and reorder so the 6 RGB hex
digits (the low 24 bits) precede the 2 alpha hex digits (the high 8 bits),
producing `#RRGGBBAA`.  Stated with fixed-width arithmetic byte groups, to
be compared against the string-slicing implementation `colorToHex`. -/
def specColorToHex : Option Int → Option String
  | none => none
  | some n =>
    let u : Nat := (n % (2 ^ 32 : Int)).toNat
    let alpha := u / 2 ^ 24
    let rgb := u % 2 ^ 24
    some ("#" ++ String.mk (((hexDigitsFixed 6 rgb).map Nat.digitChar).reverse)
        ++ String.mk (((hexDigitsFixed 2 alpha).map Nat.digitChar).reverse))

/-- `parseSuperChatColors` (src/plugin/archivedChatFetcher.ts:1148-1165). -/
def parseSuperChatColors (headerBackgroundColor headerTextColor bodyBackgroundColor
    bodyTextColor authorNameTextColor : Option Int) : Option SuperChatColors :=
  let colors : SuperChatColors :=
    { headerBackgroundColor := colorToHex headerBackgroundColor
      headerTextColor := colorToHex headerTextColor
      bodyBackgroundColor := colorToHex bodyBackgroundColor
      bodyTextColor := colorToHex bodyTextColor
      authorNameTextColor := colorToHex authorNameTextColor }
  let hasColors := colors.headerBackgroundColor.isSome ∨ colors.headerTextColor.isSome ∨
    colors.bodyBackgroundColor.isSome ∨ colors.bodyTextColor.isSome ∨
    colors.authorNameTextColor.isSome
  if hasColors then some colors else none

/-- `ArchivedChatFetcher.parseItem` (src/plugin/archivedChatFetcher.ts:940-1064).
The mutable `this.messageIndex++` is passed explicitly as `index`; it only
feeds the synthesized fallback id `archived-<index>`. -/
def parseItem (item : ChatItem) (timestamp : ℚ) (index : Nat) : Option ChatMessage :=
  match item.liveChatTextMessageRenderer with
  | some r =>
    let (text, messageRuns) := parseMessageRuns r.message
    if text = "" ∧ messageRuns.length = 0 then none
    else some
      { id := jsOr (some r.id) ("archived-" ++ toString index)
        type := .text
        timestamp
        author := jsOr r.authorName "Unknown"
        authorPhoto := getBestThumbnail r.authorPhoto
        authorChannelId := r.authorExternalChannelId
        authorBadges := parseAuthorBadges r.authorBadges
        message := text
        messageRuns := if messageRuns.length > 0 then some messageRuns else none
        timestampText := r.timestampText }
  | none =>
  match item.liveChatPaidMessageRenderer with
  | some r =>
    let (text, messageRuns) := parseMessageRuns r.message
    some
      { id := jsOr (some r.id) ("archived-" ++ toString index)
        type := .superchat
        timestamp
        author := jsOr r.authorName "Unknown"
        authorPhoto := getBestThumbnail r.authorPhoto
        authorChannelId := r.authorExternalChannelId
        authorBadges := parseAuthorBadges r.authorBadges
        message := jsOr (some text) "(Super Chat)"
        messageRuns := if messageRuns.length > 0 then some messageRuns else none
        timestampText := r.timestampText
        amount := r.purchaseAmountText
        colors := parseSuperChatColors r.headerBackgroundColor r.headerTextColor
          r.bodyBackgroundColor r.bodyTextColor r.authorNameTextColor }
  | none =>
  match item.liveChatPaidStickerRenderer with
  | some r =>
    some
      { id := jsOr (some r.id) ("archived-" ++ toString index)
        type := .supersticker
        timestamp
        author := jsOr r.authorName "Unknown"
        authorPhoto := getBestThumbnail r.authorPhoto
        authorChannelId := r.authorExternalChannelId
        authorBadges := parseAuthorBadges r.authorBadges
        message := "(Super Sticker)"
        timestampText := r.timestampText
        amount := r.purchaseAmountText
        stickerUrl := getBestThumbnail r.sticker
        colors := some
          { headerBackgroundColor := none
            headerTextColor := none
            bodyBackgroundColor := colorToHex r.backgroundColor
            bodyTextColor := none
            authorNameTextColor := colorToHex r.authorNameTextColor } }
  | none =>
  match item.liveChatMembershipItemRenderer with
  | some r =>
    let (headerText, _) := parseMessageRuns r.headerSubtext
    let (text, messageRuns) := parseMessageRuns r.message
    some
      { id := jsOr (some r.id) ("archived-" ++ toString index)
        type := .membership
        timestamp
        author := jsOr r.authorName "Unknown"
        authorPhoto := getBestThumbnail r.authorPhoto
        authorChannelId := r.authorExternalChannelId
        authorBadges := parseAuthorBadges r.authorBadges
        message := jsOr (some text) (jsOr (some headerText) "(New Member)")
        messageRuns := if messageRuns.length > 0 then some messageRuns else none
        timestampText := r.timestampText
        membershipLevel := jsOrOpt headerText }
  | none =>
  match item.liveChatSponsorshipsGiftPurchaseAnnouncementRenderer with
  | some r =>
    let (giftText, _) := parseMessageRuns r.headerPrimaryTextRuns
    some
      { id := jsOr (some r.id) ("archived-" ++ toString index)
        type := .gift
        timestamp
        author := jsOr r.authorName "Unknown"
        authorPhoto := getBestThumbnail r.authorPhoto
        authorChannelId := r.authorExternalChannelId
        message := jsOr (some giftText) "(Gift Membership)"
        timestampText := r.timestampText }
  | none =>
  match item.liveChatViewerEngagementMessageRenderer with
  | some r =>
    let (text, messageRuns) := parseMessageRuns r.message
    if text = "" then none
    else some
      { id := jsOr (some r.id) ("archived-" ++ toString index)
        type := .system
        timestamp
        author := "YouTube"
        message := text
        messageRuns := if messageRuns.length > 0 then some messageRuns else none }
  | none => none

/-- `SegmentWorkerResult` (src/plugin/archivedChatFetcher.ts:195-201). -/
structure SegmentWorkerResult where
  workerId : Nat
  messages : List ChatMessage
  fragments : Nat
  startOffsetMs : ℚ
  endOffsetMs : ℚ
deriving DecidableEq, Repr

/-- The merge/dedup/sort tail of `fetchAllMessages`
(src/plugin/archivedChatFetcher.ts:872-893): seed the seen-id set with the
first-page messages (`allMessages`), sort workers by start offset, append
each worker message whose id was not seen yet, then sort everything by
ascending timestamp.  The JavaScript `Set<string>` is modelled as a list of
ids with membership lookups; both the worker sort and the final timestamp
sort are stable in ECMAScript and are modelled by the stable `mergeSort`. -/
def mergeWorkerResults (allMessages : List ChatMessage)
    (workerResults : List SegmentWorkerResult) : List ChatMessage :=
  let seenIds := allMessages.map (fun m => m.id)
  let sortedWorkers := workerResults.mergeSort fun a b => a.startOffsetMs ≤ b.startOffsetMs
  let workerMessages := (sortedWorkers.map SegmentWorkerResult.messages).flatten
  let merged := go workerMessages allMessages seenIds
  merged.mergeSort fun a b => a.timestamp ≤ b.timestamp
where
  /-- Fold of the two nested `for` loops: `acc` is `allMessages` being
  extended in place, `seen` the id set. -/
  go : List ChatMessage → List ChatMessage → List String → List ChatMessage
  | [], acc, _ => acc
  | msg :: rest, acc, seen =>
    if msg.id ∈ seen then go rest acc seen
    else go rest (acc ++ [msg]) (msg.id :: seen)

/-- `PARALLEL_WORKERS` (src/plugin/archivedChatFetcher.ts:51). -/
def PARALLEL_WORKERS : Nat := 10

/-- The segment partition of `fetchAllMessages`
(src/plugin/archivedChatFetcher.ts:832-843): `segmentDuration` is the exact
JavaScript division `videoDurationMs / 10` (modelled in `ℚ`), segment `i`
spans `[floor(i*segmentDuration), floor((i+1)*segmentDuration))`, and the
last segment's end is overwritten with `videoDurationMs + 60000`.  The
`set` call keeps the last segment's computed start, exactly as the source
mutates only `.end`. -/
def segmentsOf (videoDurationMs : Int) : List (Int × Int) :=
  let segmentDuration : ℚ := (videoDurationMs : ℚ) / (PARALLEL_WORKERS : ℚ)
  let base := (List.range PARALLEL_WORKERS).map fun i =>
    (⌊(i : ℚ) * segmentDuration⌋, ⌊((i : ℚ) + 1) * segmentDuration⌋)
  base.set (PARALLEL_WORKERS - 1)
    (⌊((PARALLEL_WORKERS - 1 : Nat) : ℚ) * segmentDuration⌋, videoDurationMs + 60000)

end ArchivedChatFetcher

namespace LiveChatFetcher

open Schemas ArchivedChatFetcher

/-- `LiveChatFetcher.parseItem` (src/plugin/archivedChatFetcher.ts, live
module lines 1597-1716): identical dispatch and extraction logic to the
archived decoder (whose helpers `parseMessageRuns`, `parseAuthorBadges`,
`getBestThumbnail`, `colorToHex` the live module repeats verbatim), except
that every message gets `timestamp = 0`, the synthesized id uses the
`live-` source tag, and no `timestampText` is read (the live renderer
interfaces do not declare those display-timestamp fields, which stay
unread here). -/
def parseItem (item : ChatItem) (index : Nat) : Option ChatMessage :=
  match item.liveChatTextMessageRenderer with
  | some r =>
    let (text, messageRuns) := parseMessageRuns r.message
    if text = "" ∧ messageRuns.length = 0 then none
    else some
      { id := jsOr (some r.id) ("live-" ++ toString index)
        type := .text
        timestamp := 0
        author := jsOr r.authorName "Unknown"
        authorPhoto := getBestThumbnail r.authorPhoto
        authorChannelId := r.authorExternalChannelId
        authorBadges := parseAuthorBadges r.authorBadges
        message := text
        messageRuns := if messageRuns.length > 0 then some messageRuns else none }
  | none =>
  match item.liveChatPaidMessageRenderer with
  | some r =>
    let (text, messageRuns) := parseMessageRuns r.message
    some
      { id := jsOr (some r.id) ("live-" ++ toString index)
        type := .superchat
        timestamp := 0
        author := jsOr r.authorName "Unknown"
        authorPhoto := getBestThumbnail r.authorPhoto
        authorChannelId := r.authorExternalChannelId
        authorBadges := parseAuthorBadges r.authorBadges
        message := jsOr (some text) "(Super Chat)"
        messageRuns := if messageRuns.length > 0 then some messageRuns else none
        amount := r.purchaseAmountText
        colors := parseSuperChatColors r.headerBackgroundColor r.headerTextColor
          r.bodyBackgroundColor r.bodyTextColor r.authorNameTextColor }
  | none =>
  match item.liveChatPaidStickerRenderer with
  | some r =>
    some
      { id := jsOr (some r.id) ("live-" ++ toString index)
        type := .supersticker
        timestamp := 0
        author := jsOr r.authorName "Unknown"
        authorPhoto := getBestThumbnail r.authorPhoto
        authorChannelId := r.authorExternalChannelId
        authorBadges := parseAuthorBadges r.authorBadges
        message := "(Super Sticker)"
        amount := r.purchaseAmountText
        stickerUrl := getBestThumbnail r.sticker
        colors := some
          { headerBackgroundColor := none
            headerTextColor := none
            bodyBackgroundColor := colorToHex r.backgroundColor
            bodyTextColor := none
            authorNameTextColor := colorToHex r.authorNameTextColor } }
  | none =>
  match item.liveChatMembershipItemRenderer with
  | some r =>
    let (headerText, _) := parseMessageRuns r.headerSubtext
    let (text, messageRuns) := parseMessageRuns r.message
    some
      { id := jsOr (some r.id) ("live-" ++ toString index)
        type := .membership
        timestamp := 0
        author := jsOr r.authorName "Unknown"
        authorPhoto := getBestThumbnail r.authorPhoto
        authorChannelId := r.authorExternalChannelId
        authorBadges := parseAuthorBadges r.authorBadges
        message := jsOr (some text) (jsOr (some headerText) "(New Member)")
        messageRuns := if messageRuns.length > 0 then some messageRuns else none
        membershipLevel := jsOrOpt headerText }
  | none =>
  match item.liveChatSponsorshipsGiftPurchaseAnnouncementRenderer with
  | some r =>
    let (giftText, _) := parseMessageRuns r.headerPrimaryTextRuns
    some
      { id := jsOr (some r.id) ("live-" ++ toString index)
        type := .gift
        timestamp := 0
        author := jsOr r.authorName "Unknown"
        authorPhoto := getBestThumbnail r.authorPhoto
        authorChannelId := r.authorExternalChannelId
        message := jsOr (some giftText) "(Gift Membership)" }
  | none =>
  match item.liveChatViewerEngagementMessageRenderer with
  | some r =>
    let (text, messageRuns) := parseMessageRuns r.message
    if text = "" then none
    else some
      { id := jsOr (some r.id) ("live-" ++ toString index)
        type := .system
        timestamp := 0
        author := "YouTube"
        message := text
        messageRuns := if messageRuns.length > 0 then some messageRuns else none }
  | none => none

end LiveChatFetcher

namespace Json

/-- JSON values as produced by `JSON.parse`.  A number keeps its source
lexeme and a string its raw (still escaped) character content: neither
numeric values nor unescaping play any role in the verified properties,
only the extent of the consumed text does. -/
inductive Value where
  | null
  | bool (b : Bool)
  | num (lexeme : List Char)
  | str (raw : List Char)
  | arr (elems : List Value)
  | obj (members : List (List Char × Value))
deriving Repr

/-- JSON whitespace. -/
def isWs (c : Char) : Bool :=
  c = ' ' ∨ c = '\t' ∨ c = '\n' ∨ c = '\r'

/-- Drop leading JSON whitespace. -/
def skipWs : List Char → List Char
  | [] => []
  | c :: rest => if isWs c then skipWs rest else c :: rest

/-- Lex a JSON string body after the opening quote, through the closing
quote: a backslash consumes the following character (as the source's
scanner does; escape validity is not enforced, which only widens the set
of accepted documents).  Returns the raw body and the remainder after the
closing quote. -/
def lexStr : List Char → Option (List Char × List Char)
  | [] => none
  | c :: rest =>
    if c = '"' then some ([], rest)
    else if c = '\\' then
      match rest with
      | [] => none
      | c2 :: rest2 =>
        match lexStr rest2 with
        | some (s, r) => some (c :: c2 :: s, r)
        | none => none
    else
      match lexStr rest with
      | some (s, r) => some (c :: s, r)
      | none => none

/-- Maximal run of decimal digits. -/
def lexDigits : List Char → List Char × List Char
  | [] => ([], [])
  | c :: rest =>
    if c.isDigit then
      let (d, r) := lexDigits rest
      (c :: d, r)
    else ([], c :: rest)

/-- Lex an optional JSON fraction part (a dot followed by digits);
consumes nothing when absent or malformed. -/
def lexFrac (cs : List Char) : List Char × List Char :=
  match cs with
  | '.' :: rest =>
    match lexDigits rest with
    | ([], _) => ([], cs)
    | (fs, r) => ('.' :: fs, r)
  | _ => ([], cs)

/-- Lex an optional JSON exponent part (`e`/`E`, optional sign, digits);
consumes nothing when absent or malformed. -/
def lexExp (cs : List Char) : List Char × List Char :=
  match cs with
  | e :: rest =>
    if e = 'e' ∨ e = 'E' then
      match rest with
      | s :: rest2 =>
        if s = '+' ∨ s = '-' then
          match lexDigits rest2 with
          | ([], _) => ([], cs)
          | (es, r) => (e :: s :: es, r)
        else
          match lexDigits rest with
          | ([], _) => ([], cs)
          | (es, r) => (e :: es, r)
      | [] => ([], cs)
    else ([], cs)
  | [] => ([], cs)

/-- Lex a JSON number: optional minus, digits, optional fraction,
optional exponent (leading-zero strictness is not enforced, which only
widens the set of accepted documents). -/
def lexNum (cs : List Char) : Option (List Char × List Char) :=
  let negp : List Char × List Char :=
    match cs with
    | c :: rest => if c = '-' then (['-'], rest) else ([], c :: rest)
    | [] => ([], [])
  match lexDigits negp.2 with
  | ([], _) => none
  | (ds, cs2) =>
    let fr := lexFrac cs2
    let ex := lexExp fr.2
    some (negp.1 ++ ds ++ fr.1 ++ ex.1, ex.2)

/-- Match a fixed literal tail (used for `true`/`false`/`null`),
returning the remainder. -/
def dropLit : List Char → List Char → Option (List Char)
  | [], cs => some cs
  | _ :: _, [] => none
  | l :: ls, c :: cs => if c = l then dropLit ls cs else none

mutual

/-- Parse one JSON value from the head of the input (no leading
whitespace skipping: callers position the input).  Fuel-indexed recursive
descent; returns the value and the unconsumed remainder. -/
def parseVal : Nat → List Char → Option (Value × List Char)
  | 0, _ => none
  | fuel + 1, cs =>
    match cs with
    | [] => none
    | c :: rest =>
      if c = '{' then
        if (skipWs rest).head? = some '}' then some (.obj [], (skipWs rest).tail)
        else
          match parseMems fuel (skipWs rest) with
          | some (ms, rest1) => some (.obj ms, rest1)
          | none => none
      else if c = '[' then
        if (skipWs rest).head? = some ']' then some (.arr [], (skipWs rest).tail)
        else
          match parseElems fuel (skipWs rest) with
          | some (vs, rest1) => some (.arr vs, rest1)
          | none => none
      else if c = '"' then
        match lexStr rest with
        | some (s, rest1) => some (.str s, rest1)
        | none => none
      else if c = 't' then
        match dropLit ['r', 'u', 'e'] rest with
        | some rest1 => some (.bool true, rest1)
        | none => none
      else if c = 'f' then
        match dropLit ['a', 'l', 's', 'e'] rest with
        | some rest1 => some (.bool false, rest1)
        | none => none
      else if c = 'n' then
        match dropLit ['u', 'l', 'l'] rest with
        | some rest1 => some (.null, rest1)
        | none => none
      else
        match lexNum (c :: rest) with
        | some (lx, rest1) => some (.num lx, rest1)
        | none => none

/-- Parse the elements of a non-empty JSON array, positioned right after
the opening bracket (or a comma), through the closing bracket. -/
def parseElems : Nat → List Char → Option (List Value × List Char)
  | 0, _ => none
  | fuel + 1, cs =>
    match parseVal fuel (skipWs cs) with
    | none => none
    | some (v, rest) =>
      if (skipWs rest).head? = some ',' then
        match parseElems fuel (skipWs rest).tail with
        | some (vs, rest2) => some (v :: vs, rest2)
        | none => none
      else if (skipWs rest).head? = some ']' then some ([v], (skipWs rest).tail)
      else none

/-- Parse the members of a non-empty JSON object, positioned right after
the opening brace (or a comma), through the closing brace. -/
def parseMems : Nat → List Char → Option (List (List Char × Value) × List Char)
  | 0, _ => none
  | fuel + 1, cs =>
    if (skipWs cs).head? = some '"' then
      match lexStr (skipWs cs).tail with
      | none => none
      | some (k, rest1) =>
        if (skipWs rest1).head? = some ':' then
          match parseVal fuel (skipWs (skipWs rest1).tail) with
          | none => none
          | some (v, rest3) =>
            if (skipWs rest3).head? = some ',' then
              match parseMems fuel (skipWs rest3).tail with
              | some (ms, rest5) => some ((k, v) :: ms, rest5)
              | none => none
            else if (skipWs rest3).head? = some '}' then some ([(k, v)], (skipWs rest3).tail)
            else none
        else none
    else none

end


/-- `JSON.parse`: the whole input must be one JSON document surrounded by
optional whitespace.  The fuel `2 * length + 2` dominates the recursion
depth (each fuel step past the first consumes input). -/
def parse (s : List Char) : Option Value :=
  match parseVal (2 * s.length + 2) (skipWs s) with
  | some (v, rest) => if skipWs rest = [] then some v else none
  | none => none

end Json

namespace ArchivedChatFetcher

/-- The scanning loop of `rawDecode`
(src/plugin/archivedChatFetcher.ts:311-348), written with an accumulator
of already-scanned characters in reverse (`acc.reverse` is
`s.substring(0, i)`): inside a string a backslash skips two characters
and a quote leaves the string; outside, a quote enters a string, `{`/`[`
increment the depth, `}`/`]` decrement it and, when the depth reaches
zero, `JSON.parse` is attempted on the prefix up to and including the
current character — success returns the parsed object with the end index,
failure continues the scan. -/
def rdLoop : List Char → List Char → Int → Bool → Option (Json.Value × Nat)
  | _, [], _, _ => none
  | acc, c :: rest, depth, inString =>
    if inString then
      if c = '\\' then
        match rest with
        | [] => none
        | c2 :: rest2 => rdLoop (c2 :: c :: acc) rest2 depth true
      else if c = '"' then rdLoop (c :: acc) rest depth false
      else rdLoop (c :: acc) rest depth true
    else if c = '"' then rdLoop (c :: acc) rest depth true
    else if c = '{' ∨ c = '[' then rdLoop (c :: acc) rest (depth + 1) inString
    else if c = '}' ∨ c = ']' then
      if depth - 1 = 0 then
        match Json.parse ((c :: acc).reverse) with
        | some obj => some (obj, (c :: acc).length)
        | none => rdLoop (c :: acc) rest (depth - 1) inString
      else rdLoop (c :: acc) rest (depth - 1) inString
    else rdLoop (c :: acc) rest depth inString

/-- `rawDecode` (src/plugin/archivedChatFetcher.ts:304-351): parse JSON
from the beginning of the string, ignoring extra content, returning the
parsed object and the index where parsing ended; `null` unless the input
starts with `{` or `[`. -/
def rawDecode (s : List Char) : Option (Json.Value × Nat) :=
  match s with
  | [] => none
  | c :: _ =>
    if c ≠ '{' ∧ c ≠ '[' then none
    else rdLoop [] s 0 false

/-- Characters with no role in the scanner outside a string. -/
def plainChar (c : Char) : Bool :=
  ¬(c = '"' ∨ c = '{' ∨ c = '[' ∨ c = '}' ∨ c = ']')

/-- The scanner passes over `w` (from any depth `d ≥ 1`, outside a
string) without attempting a parse and without changing depth or string
state: the property the consumed text of one well-formed JSON value
enjoys. -/
def ScanValue (w : List Char) : Prop :=
  ∀ (t acc : List Char) (d : Int), 1 ≤ d →
    rdLoop acc (w ++ t) d false = rdLoop (w.reverse ++ acc) t d false

/-- The scanner passes over `w` — a member/element tail ending in its
closing bracket — from depth `d ≥ 1`, lowering the depth by one at the
final bracket; at depth 1 that bracket triggers the parse attempt on
everything scanned so far. -/
def ScanClose (w : List Char) : Prop :=
  ∀ (t acc : List Char) (d : Int), 1 ≤ d →
    rdLoop acc (w ++ t) d false =
      if d = 1 then
        match Json.parse (acc.reverse ++ w) with
        | some obj => some (obj, (acc.reverse ++ w).length)
        | none => rdLoop (w.reverse ++ acc) t 0 false
      else rdLoop (w.reverse ++ acc) t (d - 1) false

/-- The scanner consumes a string body `w` (through its closing quote)
starting inside a string and ends outside it, at unchanged depth. -/
def ScanStrBody (w : List Char) : Prop :=
  ∀ (t acc : List Char) (d : Int),
    rdLoop acc (w ++ t) d true = rdLoop (w.reverse ++ acc) t d false

end ArchivedChatFetcher

namespace LiveChatFetcher

/-- The result shape of `utils.exec`
(status code, standard output, standard error). -/
structure ExecResult where
  status : Int
  stdout : String
  stderr : String
deriving DecidableEq, Repr

/-- The outcome of awaiting `utils.exec`: a result, or a thrown error
(caught by the `try`/`catch` of `curlPost`). -/
inductive ExecOutcome where
  | ok (r : ExecResult)
  | thrown (msg : String)
deriving DecidableEq, Repr

/-- The result shape of `curlPost`:
`\x7b success: boolean; body: string; error?: string \x7d`. -/
structure PostResult where
  success : Bool
  body : String
  error : Option String
deriving DecidableEq, Repr

/-- `curlPost` (src/plugin/archivedChatFetcher.ts:1369-1390): the exec
outcome of the `/usr/bin/curl` invocation is checked only for a non-zero
exit status (failure with a diagnostic) or a thrown error (failure with
a diagnostic); an exit status of zero is success with the standard
output as body.  No HTTP status code is inspected. -/
def curlPost (outcome : ExecOutcome) : PostResult :=
  match outcome with
  | .thrown e => ⟨false, "", some ("curl error: " ++ e)⟩
  | .ok r =>
    if r.status ≠ 0 then
      ⟨false, "",
        some ("curl failed with status " ++ toString r.status ++ ": " ++ r.stderr)⟩
    else ⟨true, r.stdout, none⟩

/-- An HTTP response as received by curl: status code and body. -/
structure HttpResponse where
  status : Nat
  body : String
deriving DecidableEq, Repr

/-- What the POST transport produced: an HTTP response (of any status
code), or a transport-level failure. -/
inductive TransportOutcome where
  | received (r : HttpResponse)
  | failed (code : Int) (diag : String)
deriving DecidableEq, Repr

/-- Model of the external collaborator `/usr/bin/curl` under the exact
flag list of `curlPost` (`-s -X POST -H ... -A ... -d`,
src/plugin/archivedChatFetcher.ts:1372-1380): without `--fail`/`-f`,
curl exits with status 0 whenever it receives any HTTP response —
whatever the response's status code — and writes the response body to
standard output; a non-zero exit occurs only for transport-level
failures (the exit code and diagnostic are curl's). -/
def curlExec (t : TransportOutcome) : ExecOutcome :=
  match t with
  | .received r => .ok ⟨0, r.body, ""⟩
  | .failed code diag => .ok ⟨code, "", diag⟩

/-- `LiveChatResult`, up to the payload of the success case: `ok` keeps
the parsed response document, of which the source's `messages`
(`parseActions(data)`) and next continuation
(`extractContinuationFromResponse(data)`) fields are computed — both are
pure functions of the carried document whose result values play no role
in any verified property.  What does matter is whether that processing
throws a JavaScript exception (caught by the outer `try`/`catch` of
`fetchLiveChat`), which the `jsThrows` analysis below models. -/
inductive LiveChatResult where
  | failure (error : String)
  | ok (data : Json.Value)

/-! JavaScript evaluation of the response-processing code
(`parseActions`, `parseItem`, `parseMessageRuns`, `parseAuthorBadges`,
`getBestThumbnail`, `extractContinuationFromResponse` of the
`LiveChatFetcher` class) over a `JSON.parse` result: helper semantics of
property access, optional chaining, truthiness and the numeric coercion
of `length > 0`, followed by a per-function analysis of whether the
processing throws a `TypeError`.  Throw points in the source: a plain
property access on `null` (array elements and the top-level `data`), a
`for`-`of` or spread of a truthy non-iterable, a method call
(`toLowerCase`) on a non-string, and a comparator property access on a
`null` array element during `sort`. -/

/-- Is the value JSON `null`. -/
def isNullV : Json.Value → Bool
  | .null => true
  | _ => false

/-- A JSON number lexeme denotes zero iff its mantissa (the part before
any exponent) has no nonzero digit. -/
def numLexZero (cs : List Char) : Bool :=
  (cs.takeWhile (fun c => c != 'e' && c != 'E')).all
    (fun c => !(c.isDigit) || c == '0')

/-- JavaScript truthiness of a `JSON.parse` result: `null`, `false`,
zero and the empty string are falsy; arrays and objects are truthy. -/
def truthy : Json.Value → Bool
  | .null => false
  | .bool b => b
  | .num cs => !(numLexZero cs)
  | .str s => !s.isEmpty
  | .arr _ => true
  | .obj _ => true

/-- Truthiness of a possibly-`undefined` value. -/
def truthyOpt : Option Json.Value → Bool
  | none => false
  | some v => truthy v

/-- Object property lookup, last binding winning (as `JSON.parse` of
duplicate keys keeps the last); `none` is JavaScript `undefined`. -/
def jsField (ms : List (List Char × Json.Value)) (k : String) :
    Option Json.Value :=
  (ms.reverse.find? (fun p => p.1 == k.data)).map (fun p => p.2)

/-- `v.k` for a receiver known not to be `null`/`undefined`: a property
of an object, `undefined` for every other receiver. -/
def jsAccess (v : Json.Value) (k : String) : Option Json.Value :=
  match v with
  | .obj ms => jsField ms k
  | _ => none

/-- `x?.k`: short-circuits to `undefined` on a `null` or `undefined`
receiver, otherwise accesses the property. -/
def jsChain (x : Option Json.Value) (k : String) : Option Json.Value :=
  match x with
  | some (.obj ms) => jsField ms k
  | _ => none

/-- Truthiness of `x?.length`: the length of an array or string, the
`length` property of an object, `undefined` otherwise (the guard
`if (!xs?.length)` of `parseMessageRuns`, `parseAuthorBadges` and
`getBestThumbnail`). -/
def lengthTruthyOpt : Option Json.Value → Bool
  | some (.arr l) => !l.isEmpty
  | some (.str s) => !s.isEmpty
  | some (.obj ms) => truthyOpt (jsField ms "length")
  | _ => false

/-- The `WhiteSpace`/`LineTerminator` characters `Number(string)`
trims. -/
def jsWhiteSp (c : Char) : Bool :=
  c ∈ ['\t', '\n', '\x0b', '\x0c', '\r', ' ', '\u00a0', '\u1680',
    '\u2000', '\u2001', '\u2002', '\u2003', '\u2004', '\u2005', '\u2006',
    '\u2007', '\u2008', '\u2009', '\u200a', '\u2028', '\u2029', '\u202f',
    '\u205f', '\u3000', '\ufeff']

/-- Nonempty all-digit run (an exponent's digits). -/
def digitsAll (l : List Char) : Bool :=
  !l.isEmpty && l.all Char.isDigit

/-- The remainder after a decimal mantissa is a valid numeric-literal
tail: empty, or `e`/`E`, an optional sign and digits. -/
def expFull : List Char → Bool
  | [] => true
  | e :: r =>
    (e == 'e' || e == 'E') &&
    (match r with
     | '+' :: r2 => digitsAll r2
     | '-' :: r2 => digitsAll r2
     | _ => digitsAll r)

/-- Whether a decimal numeric literal (`digits[.digits][exp]` or
`.digits[exp]`) matches the whole input; `some b` with `b` true iff the
denoted value is nonzero (positive, signs handled by the caller),
`none` for `NaN`. -/
def decNumPos (r : List Char) : Option Bool :=
  match Json.lexDigits r with
  | ([], _) =>
    match r with
    | '.' :: r2 =>
      match Json.lexDigits r2 with
      | ([], _) => none
      | (fs, r3) => if expFull r3 then some (fs.any (fun c => c != '0')) else none
    | _ => none
  | (ds, r1) =>
    match r1 with
    | '.' :: r2 =>
      match Json.lexDigits r2 with
      | (fs, r3) =>
        if expFull r3 then some ((ds ++ fs).any (fun c => c != '0')) else none
    | _ => if expFull r1 then some (ds.any (fun c => c != '0')) else none

/-- Hexadecimal digit. -/
def isHexDig (c : Char) : Bool :=
  c.isDigit || (decide ('a' ≤ c) && decide (c ≤ 'f')) ||
    (decide ('A' ≤ c) && decide (c ≤ 'F'))

/-- Octal digit. -/
def isOctDig (c : Char) : Bool :=
  decide ('0' ≤ c) && decide ('7' ≥ c)

/-- Binary digit. -/
def isBinDig (c : Char) : Bool :=
  c == '0' || c == '1'

/-- An unsigned numeric-literal core is positive: `Infinity`, a hex,
octal or binary literal with a nonzero digit, or a positive decimal
literal. -/
def corePos (r : List Char) : Bool :=
  if r == "Infinity".data then true
  else
    match r with
    | '0' :: c :: ds =>
      if c == 'x' || c == 'X' then
        !ds.isEmpty && ds.all isHexDig && ds.any (fun d => d != '0')
      else if c == 'o' || c == 'O' then
        !ds.isEmpty && ds.all isOctDig && ds.any (fun d => d != '0')
      else if c == 'b' || c == 'B' then
        !ds.isEmpty && ds.all isBinDig && ds.any (fun d => d != '0')
      else (decNumPos r).getD false
    | _ => (decNumPos r).getD false

/-- `Number(string) > 0`: trim, handle sign (a minus can never give a
positive value), then the unsigned literal; exact reals (exponent
underflow to a zero double, possible only in a pathological `length`
field, is treated like the rest of the file's exact number model). -/
def strNumberPos (s : List Char) : Bool :=
  match ((s.dropWhile jsWhiteSp).reverse.dropWhile jsWhiteSp).reverse with
  | [] => false
  | '-' :: _ => false
  | '+' :: r => corePos r
  | t => corePos t

mutual

/-- `String(v)` of a JSON value along the array-join coercion path of
`Number(array)` (`null` renders empty, arrays join with commas, plain
objects render `[object Object]`; a number renders by its source
lexeme, which agrees with the canonical rendering for plain decimal
literals). -/
def jsArrStr : Json.Value → List Char
  | .null => []
  | .bool true => ['t', 'r', 'u', 'e']
  | .bool false => ['f', 'a', 'l', 's', 'e']
  | .num cs => cs
  | .str s => s
  | .arr l => List.intercalate [','] (jsArrStrL l)
  | .obj _ => "[object Object]".data

/-- `String` of each element of a list of JSON values. -/
def jsArrStrL : List Json.Value → List (List Char)
  | [] => []
  | v :: vs => jsArrStr v :: jsArrStrL vs

end

/-- `f > 0` for a `length`-property value `f`: `undefined`/`null` are
not greater than zero, booleans coerce to 0/1, numbers compare exactly,
strings and arrays through `Number` coercion, plain objects give
`NaN`. -/
def jsNumGtZero : Option Json.Value → Bool
  | none => false
  | some .null => false
  | some (.bool b) => b
  | some (.num cs) => !numLexZero cs && !(cs.head? == some '-')
  | some (.str s) => strNumberPos s
  | some (.arr l) => strNumberPos (List.intercalate [','] (jsArrStrL l))
  | some (.obj _) => false

/-- `x.length > 0` for a truthy `x` (the guard of
`extractContinuationFromResponse`). -/
def jsLenPos : Json.Value → Bool
  | .arr l => !l.isEmpty
  | .str s => !s.isEmpty
  | .obj ms => jsNumGtZero (jsField ms "length")
  | _ => false

/-- Does the `LiveChatFetcher.parseMessageRuns` call
(src/plugin/archivedChatFetcher.ts:1719-1753) throw on `runs`: past the
`!runs?.length` guard, a `for`-`of` over an array throws on a `null`
element (`run.text`), over a string iterates its characters harmlessly,
and over an object with a truthy `length` throws (not iterable). -/
def runsThrows (runs : Option Json.Value) : Bool :=
  if lengthTruthyOpt runs = false then false
  else
    match runs with
    | some (.arr l) => l.any isNullV
    | some (.obj _) => true
    | _ => false

/-- Does `parseMessageRuns` return empty text and an empty run list
(the text renderer's suppression test at line 1605 — evaluated before
the thumbnail/badge fields): true when the guard returns early, when
`runs` is a string (characters have neither `text` nor `emoji`), and
when no array element has a truthy `text` or `emoji`. -/
def runsYieldNothing (runs : Option Json.Value) : Bool :=
  if lengthTruthyOpt runs = false then true
  else
    match runs with
    | some (.arr l) =>
      l.all (fun run =>
        !truthyOpt (jsAccess run "text") && !truthyOpt (jsAccess run "emoji"))
    | _ => true

/-- Does the `LiveChatFetcher.getBestThumbnail` call
(src/plugin/archivedChatFetcher.ts:1788-1792) throw on `thumbnails`:
past the `!thumbnails?.length` guard, spreading an object throws (not
iterable), and sorting an array of two or more elements of which one is
`null` throws in the comparator (`b.width`); a single `null` element is
never compared and `sorted[0]?.url` chains safely. -/
def thumbsThrows (t : Option Json.Value) : Bool :=
  if lengthTruthyOpt t = false then false
  else
    match t with
    | some (.arr l) => decide (2 ≤ l.length) && l.any isNullV
    | some (.obj _) => true
    | _ => false

/-- Does `renderer.icon?.iconType?.toLowerCase()` throw: calling
`toLowerCase` on a non-string, non-nullish `iconType`. -/
def iconTypeThrows : Option Json.Value → Bool
  | some (.num _) => true
  | some (.bool _) => true
  | some (.arr _) => true
  | some (.obj _) => true
  | _ => false

/-- The lowercased `iconType` when it is a string. -/
def iconTypeLower : Option Json.Value → Option (List Char)
  | some (.str s) => some (s.map Char.toLower)
  | _ => none

/-- One iteration of the `LiveChatFetcher.parseAuthorBadges` loop
(src/plugin/archivedChatFetcher.ts:1755-1787) on `badge`: throws on a
`null` element (`badge.liveChatAuthorBadgeRenderer`), on a missing or
`null` renderer (`renderer.icon`), on a non-string `iconType`
(`toLowerCase`), and — when a badge type is selected — inside
`getBestThumbnail(renderer.customThumbnail?.thumbnails)`. -/
def badgeThrows (badge : Json.Value) : Bool :=
  match badge with
  | .null => true
  | _ =>
    match jsAccess badge "liveChatAuthorBadgeRenderer" with
    | none => true
    | some .null => true
    | some r =>
      let iconType := jsChain (jsAccess r "icon") "iconType"
      if iconTypeThrows iconType then true
      else
        let lower := iconTypeLower iconType
        let customThumbnail := jsAccess r "customThumbnail"
        if lower == some "verified".data || lower == some "owner".data ||
            lower == some "moderator".data || lower == some "member".data ||
            truthyOpt customThumbnail then
          thumbsThrows (jsChain customThumbnail "thumbnails")
        else false

/-- Does the `LiveChatFetcher.parseAuthorBadges` call throw on `badges`:
past the `!badges?.length` guard, an object with truthy `length` is not
iterable, a string's character elements make `renderer.icon` throw on
the `undefined` renderer, and an array throws iff some element does. -/
def badgesThrows (badges : Option Json.Value) : Bool :=
  if lengthTruthyOpt badges = false then false
  else
    match badges with
    | some (.arr l) => l.any badgeThrows
    | _ => true

/-- `r.message?.runs` of a renderer. -/
def rendererRuns (r : Json.Value) : Option Json.Value :=
  jsChain (jsAccess r "message") "runs"

/-- `r.authorPhoto?.thumbnails` of a renderer. -/
def rendererPhotoThumbs (r : Json.Value) : Option Json.Value :=
  jsChain (jsAccess r "authorPhoto") "thumbnails"

/-- Throws of the text branch of `LiveChatFetcher.parseItem`
(src/plugin/archivedChatFetcher.ts:1601-1618): `parseMessageRuns` runs
first; when it yields no content the branch returns `null` before the
thumbnail and badge fields are evaluated. -/
def textThrows (r : Json.Value) : Bool :=
  if runsThrows (rendererRuns r) then true
  else if runsYieldNothing (rendererRuns r) then false
  else
    thumbsThrows (rendererPhotoThumbs r) ||
      badgesThrows (jsAccess r "authorBadges")

/-- Throws of the paid-message branch (lines 1621-1638): message runs,
author photo, author badges (`parseSuperChatColors` and `colorToHex`
never throw). -/
def paidThrows (r : Json.Value) : Bool :=
  runsThrows (rendererRuns r) || thumbsThrows (rendererPhotoThumbs r) ||
    badgesThrows (jsAccess r "authorBadges")

/-- Throws of the paid-sticker branch (lines 1641-1661): author photo,
author badges, sticker thumbnails. -/
def stickerThrows (r : Json.Value) : Bool :=
  thumbsThrows (rendererPhotoThumbs r) ||
    badgesThrows (jsAccess r "authorBadges") ||
    thumbsThrows (jsChain (jsAccess r "sticker") "thumbnails")

/-- Throws of the membership branch (lines 1664-1681): header-subtext
runs, message runs, author photo, author badges. -/
def membershipThrows (r : Json.Value) : Bool :=
  runsThrows (jsChain (jsAccess r "headerSubtext") "runs") ||
    runsThrows (rendererRuns r) || thumbsThrows (rendererPhotoThumbs r) ||
    badgesThrows (jsAccess r "authorBadges")

/-- Throws of the gift branch (lines 1684-1697): header primary-text
runs and author photo (no badges in this branch). -/
def giftThrows (r : Json.Value) : Bool :=
  runsThrows (jsChain (jsChain (jsChain (jsAccess r "header")
    "liveChatSponsorshipsHeaderRenderer") "primaryText") "runs") ||
    thumbsThrows (rendererPhotoThumbs r)

/-- Throws of the engagement branch (lines 1700-1716): only the message
runs (the early return and the remaining fields cannot throw). -/
def engagementThrows (r : Json.Value) : Bool :=
  runsThrows (rendererRuns r)

/-- Does `LiveChatFetcher.parseItem`
(src/plugin/archivedChatFetcher.ts:1597-1716) throw on a truthy `item`:
the branches are guarded by the truthiness of the renderer fields, in
source order. -/
def parseItemThrows (item : Json.Value) : Bool :=
  let tr := jsAccess item "liveChatTextMessageRenderer"
  if truthyOpt tr then textThrows (tr.getD .null)
  else
    let pr := jsAccess item "liveChatPaidMessageRenderer"
    if truthyOpt pr then paidThrows (pr.getD .null)
    else
      let sr := jsAccess item "liveChatPaidStickerRenderer"
      if truthyOpt sr then stickerThrows (sr.getD .null)
      else
        let mr := jsAccess item "liveChatMembershipItemRenderer"
        if truthyOpt mr then membershipThrows (mr.getD .null)
        else
          let gr :=
            jsAccess item "liveChatSponsorshipsGiftPurchaseAnnouncementRenderer"
          if truthyOpt gr then giftThrows (gr.getD .null)
          else
            let er := jsAccess item "liveChatViewerEngagementMessageRenderer"
            if truthyOpt er then engagementThrows (er.getD .null)
            else false

/-- One iteration of the `parseActions` loop on `action`: a `null`
element throws at `action.addChatItemAction`; a falsy `item` is
skipped; a truthy `item` goes through `parseItem`. -/
def actionThrows (action : Json.Value) : Bool :=
  match action with
  | .null => true
  | _ =>
    let item := jsChain (jsAccess action "addChatItemAction") "item"
    match item with
    | some it => if truthy it then parseItemThrows it else false
    | none => false

/-- Does `LiveChatFetcher.parseActions`
(src/plugin/archivedChatFetcher.ts:1576-1597) throw on a non-`null`
`data`: after `data.continuationContents?.liveChatContinuation?.actions`,
a falsy `actions` returns early; a `for`-`of` over a string iterates
harmlessly, over any other truthy non-array throws (not iterable), and
over an array throws iff some element iteration does. -/
def parseActionsThrows (data : Json.Value) : Bool :=
  let actions := jsChain (jsChain (jsAccess data "continuationContents")
    "liveChatContinuation") "actions"
  match actions with
  | some a =>
    if truthy a then
      match a with
      | .arr l => l.any actionThrows
      | .str _ => false
      | _ => true
    else false
  | none => false

/-- Does `LiveChatFetcher.extractContinuationFromResponse`
(src/plugin/archivedChatFetcher.ts:1554-1574) throw on a non-`null`
`data`: when `continuations` is truthy with `length > 0`,
`continuations[0]` is selected (array head, string character, or the
object's `"0"` property) and `cont.timedContinuationData` throws iff
that element is `null` or missing; everything past it chains or guards
safely. -/
def extractContThrows (data : Json.Value) : Bool :=
  let continuations := jsChain (jsChain (jsAccess data
    "continuationContents") "liveChatContinuation") "continuations"
  match continuations with
  | some c =>
    if truthy c && jsLenPos c then
      match c with
      | .arr l =>
        match l with
        | x :: _ => isNullV x
        | [] => false
      | .obj ms =>
        match jsField ms "0" with
        | none => true
        | some .null => true
        | some _ => false
      | _ => false
    else false
  | none => false

/-- Does the response processing of `fetchLiveChat` throw: `null` data
makes `data.continuationContents` throw (in both helpers); otherwise
`parseActions` runs first and `extractContinuationFromResponse` second
(a throw in either lands in the same outer `catch`). -/
def jsThrows (data : Json.Value) : Bool :=
  match data with
  | .null => true
  | _ => parseActionsThrows data || extractContThrows data

/-- The diagnostic of the outer `catch`
(`Failed to fetch live chat: ${error}`, line 1532): the thrown
`TypeError`'s engine-rendered text is abstracted to its class name. -/
def liveChatCatchDiag : String := "Failed to fetch live chat: TypeError"

/-- `fetchLiveChat` (src/plugin/archivedChatFetcher.ts:1493-1534) as a
function of the exec outcome of its single POST: failure when `curlPost`
failed (with `response.error || "API request failed"`), when the
response body is empty, when `JSON.parse` of the body throws, or when
the response processing (`parseActions`,
`extractContinuationFromResponse`) throws into the outer `catch`;
success otherwise, carrying the parsed document. -/
def fetchLiveChat (outcome : ExecOutcome) : LiveChatResult :=
  if (curlPost outcome).success = false then
    .failure (ArchivedChatFetcher.jsOr (curlPost outcome).error "API request failed")
  else if (curlPost outcome).body = "" then .failure "Empty response from API"
  else
    match Json.parse (curlPost outcome).body.data with
    | none => .failure "Failed to parse API response"
    | some data =>
      if jsThrows data = true then .failure liveChatCatchDiag
      else .ok data

end LiveChatFetcher

namespace Entry

open Schemas

/-- The orchestrator's module-level state (src/plugin/entry.ts:23-31):
the current video url, the stored chat data, and the live-chat polling
state.  `liveChatMetadata` stands for the held metadata record (a
string stands in for its content). -/
structure PluginState where
  currentVideoUrl : Option String
  chatData : List ChatMessage
  isLiveStream : Bool
  liveChatMetadata : Option String
  liveChatPollingTimer : Bool
deriving DecidableEq, Repr

/-- `stopLiveChatPolling` (src/plugin/entry.ts:475-482): clears the
pending timer (when one is set), and resets the live-stream flag and the
held metadata. -/
def stopLiveChatPolling (s : PluginState) : PluginState :=
  { s with liveChatPollingTimer := false, isLiveStream := false,
           liveChatMetadata := none }

/-- `onFileLoaded` (src/plugin/entry.ts:748-778) restricted to the state
it touches: stops live-chat polling; then, when a url is present, is a
YouTube url and yields a video id, records it as `currentVideoUrl` and
starts `fetchChatData(url)` fire-and-forget (its completion is the
separate event `archivedChatDownloaded` below).  The url predicates
(`isYouTubeUrl`, `extractVideoId` success) are inputs of the event. -/
def onFileLoaded (s : PluginState) (url : Option String)
    (isYouTube : Bool) (videoIdFound : Bool) : PluginState :=
  match url with
  | none => stopLiveChatPolling s
  | some u =>
    if isYouTube = false then stopLiveChatPolling s
    else if videoIdFound = false then stopLiveChatPolling s
    else { stopLiveChatPolling s with currentVideoUrl := some u }

set_option linter.unusedVariables false in
/-- The completion of a `downloadArchivedChatData` run started for
`forUrl` (src/plugin/entry.ts:630-673): when the download and parse
succeed, the parsed messages are stored into `chatData` unconditionally
— the assignment `chatData = parseChatData(chatFileContent)`
(src/plugin/entry.ts:668) follows the awaits with no comparison of the
originating `forUrl` (the `videoUrl` argument) against
`currentVideoUrl`, and no such comparison exists anywhere on the path
from `fetchChatData`. -/
def archivedChatDownloaded (s : PluginState) (forUrl : String)
    (parsedMsgs : List ChatMessage) : PluginState :=
  { s with chatData := parsedMsgs }

end Entry

/-! ## Helper lemmas -/

namespace ArchivedChatFetcher

theorem hexDigitsFixed_zero (w : Nat) : hexDigitsFixed w 0 = List.replicate w 0 := by
  induction w with
  | zero => rfl
  | succ w ih => simp [hexDigitsFixed, ih, List.replicate_succ]

theorem hexDigitsFixed_length (w m : Nat) : (hexDigitsFixed w m).length = w := by
  induction w generalizing m with
  | zero => rfl
  | succ w ih => simp [hexDigitsFixed, ih]

theorem hexDigitsFixed_append (w1 w2 m : Nat) :
    hexDigitsFixed (w1 + w2) m = hexDigitsFixed w1 m ++ hexDigitsFixed w2 (m / 16 ^ w1) := by
  induction w1 generalizing m with
  | zero => simp [hexDigitsFixed]
  | succ w ih =>
      have hrw : w + 1 + w2 = (w + w2) + 1 := by omega
      rw [hrw]
      simp only [hexDigitsFixed, ih, List.cons_append, List.cons.injEq, true_and]
      rw [Nat.div_div_eq_div_mul]
      congr 2
      rw [pow_succ']

theorem hexDigitsFixed_mod (w m : Nat) :
    hexDigitsFixed w (m % 16 ^ w) = hexDigitsFixed w m := by
  induction w generalizing m with
  | zero => rfl
  | succ w ih =>
      simp only [hexDigitsFixed, List.cons.injEq]
      constructor
      · exact Nat.mod_mod_of_dvd m (dvd_pow_self 16 (Nat.succ_ne_zero w))
      · have h : m % 16 ^ (w + 1) / 16 = m / 16 % 16 ^ w := by
          rw [pow_succ']
          exact Nat.mod_mul_right_div_self m 16 (16 ^ w)
        rw [h, ih]

theorem hexDigitsFixed_eq_digits (w : Nat) :
    ∀ m : Nat, m < 16 ^ w →
      hexDigitsFixed w m =
        Nat.digits 16 m ++ List.replicate (w - (Nat.digits 16 m).length) 0 := by
  induction w with
  | zero =>
      intro m hm
      have : m = 0 := by omega
      subst this
      simp [hexDigitsFixed]
  | succ w ih =>
      intro m hm
      by_cases hm0 : m = 0
      · subst hm0
        simp [hexDigitsFixed_zero]
      · have hdig : Nat.digits 16 m = m % 16 :: Nat.digits 16 (m / 16) :=
          Nat.digits_def' (by norm_num) (Nat.pos_of_ne_zero hm0)
        have hlt : m / 16 < 16 ^ w := by
          apply Nat.div_lt_of_lt_mul
          rw [← pow_succ']
          exact hm
        simp only [hexDigitsFixed, hdig, ih _ hlt, List.cons_append, List.cons.injEq,
          true_and, List.length_cons]
        congr 2
        omega

theorem padStart8_natToHex (m : Nat) (h : m < 16 ^ 8) :
    padStart8 (natToHex m) = ((hexDigitsFixed 8 m).map Nat.digitChar).reverse := by
  by_cases hm0 : m = 0
  · subst hm0
    simp only [natToHex, if_pos rfl, padStart8, List.length_singleton,
      hexDigitsFixed_zero, List.map_replicate, List.reverse_replicate]
    show List.replicate 7 '0' ++ ['0'] = List.replicate 8 (Nat.digitChar 0)
    rw [← List.replicate_succ' 7 '0']
    rfl
  · have hlen : (Nat.digits 16 m).length ≤ 8 := by
      have hlog : Nat.log 16 m < 8 := (Nat.lt_pow_iff_log_lt (by norm_num) hm0).mp h
      rw [Nat.digits_len 16 m (by norm_num) hm0]
      omega
    simp only [natToHex, if_neg hm0, padStart8, List.length_reverse, List.length_map]
    rw [hexDigitsFixed_eq_digits 8 m h, List.map_append, List.reverse_append,
      List.map_replicate, List.reverse_replicate]
    rfl

end ArchivedChatFetcher

/-! ## Claim theorems -/

open Schemas

/-- C8: for every defined input color number, `colorToHex` reinterprets it
as an unsigned 32-bit integer (modulo `2 ^ 32`), renders it as 8 lowercase
hex digits, and moves the leading 2 alpha digits behind the 6 RGB digits,
producing `#` followed by `RRGGBBAA`; in particular
`colorToHex 0xFFAABBCC = "#aabbccff"` and `colorToHex undefined =
undefined`. -/
theorem C8_colorToHex_correct :
    (∀ o : Option Int,
      ArchivedChatFetcher.colorToHex o = ArchivedChatFetcher.specColorToHex o) ∧
    ArchivedChatFetcher.colorToHex (some 0xFFAABBCC) = some "#aabbccff" ∧
    ArchivedChatFetcher.colorToHex none = none := by
  have main : ∀ o : Option Int,
      ArchivedChatFetcher.colorToHex o = ArchivedChatFetcher.specColorToHex o := by
    intro o
    cases o with
    | none => rfl
    | some n =>
      show some _ = some _
      set u : Nat := (n % (2 ^ 32 : Int)).toNat with hu
      have hun : u < 16 ^ 8 := by
        have h1 : (0 : Int) ≤ n % 2 ^ 32 := Int.emod_nonneg n (by norm_num)
        have h2 : n % 2 ^ 32 < 2 ^ 32 := Int.emod_lt_of_pos n (by norm_num)
        have : ((16 : Int) ^ 8) = 2 ^ 32 := by norm_num
        omega
      have hsplit : ArchivedChatFetcher.hexDigitsFixed 8 u =
          ArchivedChatFetcher.hexDigitsFixed 6 u ++
            ArchivedChatFetcher.hexDigitsFixed 2 (u / 16 ^ 6) :=
        ArchivedChatFetcher.hexDigitsFixed_append 6 2 u
      have hl2 : (((ArchivedChatFetcher.hexDigitsFixed 2 (u / 16 ^ 6)).map
          Nat.digitChar).reverse).length = 2 := by
        simp [ArchivedChatFetcher.hexDigitsFixed_length]
      have hbody : ArchivedChatFetcher.padStart8 (ArchivedChatFetcher.natToHex u) =
          ((ArchivedChatFetcher.hexDigitsFixed 2 (u / 16 ^ 6)).map Nat.digitChar).reverse ++
            ((ArchivedChatFetcher.hexDigitsFixed 6 u).map Nat.digitChar).reverse := by
        rw [ArchivedChatFetcher.padStart8_natToHex u hun, hsplit, List.map_append,
          List.reverse_append]
      have htake : (ArchivedChatFetcher.padStart8 (ArchivedChatFetcher.natToHex u)).take 2 =
          ((ArchivedChatFetcher.hexDigitsFixed 2 (u / 16 ^ 6)).map Nat.digitChar).reverse := by
        rw [hbody, List.take_left' hl2]
      have hdrop : (ArchivedChatFetcher.padStart8 (ArchivedChatFetcher.natToHex u)).drop 2 =
          ((ArchivedChatFetcher.hexDigitsFixed 6 u).map Nat.digitChar).reverse := by
        rw [hbody, List.drop_left' hl2]
      have halpha : u / 2 ^ 24 = u / 16 ^ 6 := by norm_num
      have hrgb : ArchivedChatFetcher.hexDigitsFixed 6 (u % 2 ^ 24) =
          ArchivedChatFetcher.hexDigitsFixed 6 u := by
        have : (16 : Nat) ^ 6 = 2 ^ 24 := by norm_num
        rw [← this, ArchivedChatFetcher.hexDigitsFixed_mod]
      simp only [ArchivedChatFetcher.colorToHex, ArchivedChatFetcher.specColorToHex,
        ← hu, htake, hdrop, halpha, hrgb]
  refine ⟨main, ?_, rfl⟩
  rw [main (some 0xFFAABBCC)]
  decide

/-- C9: thumbnail selection is deterministic and width-maximal: for every
non-empty thumbnail list the selected URL belongs to an entry whose
declared width (missing treated as 0) is maximal; on the three-element
example the selection is `"b"`; an empty or absent list yields no
selection. -/
theorem C9_getBestThumbnail_correct :
    (∀ thumbnails : List ArchivedChatFetcher.Thumbnail, thumbnails ≠ [] →
      ∃ t ∈ thumbnails,
        ArchivedChatFetcher.getBestThumbnail (some thumbnails) = some t.url ∧
        ∀ t2 ∈ thumbnails, t2.width.getD 0 ≤ t.width.getD 0) ∧
    ArchivedChatFetcher.getBestThumbnail
      (some [{ url := "a", width := some 32 }, { url := "b", width := some 64 },
        { url := "c" }]) = some "b" ∧
    ArchivedChatFetcher.getBestThumbnail none = none ∧
    ArchivedChatFetcher.getBestThumbnail (some []) = none := by
  have gen : ∀ thumbnails : List ArchivedChatFetcher.Thumbnail, thumbnails ≠ [] →
      ∃ t ∈ thumbnails,
        ArchivedChatFetcher.getBestThumbnail (some thumbnails) = some t.url ∧
        ∀ t2 ∈ thumbnails, t2.width.getD 0 ≤ t.width.getD 0 := by
    intro l hne
    obtain ⟨c, cs, rfl⟩ := List.exists_cons_of_ne_nil hne
    set le : ArchivedChatFetcher.Thumbnail → ArchivedChatFetcher.Thumbnail → Bool :=
      fun a b => (b.width.getD 0) ≤ (a.width.getD 0) with hle
    have htrans : ∀ a b c, le a b → le b c → le a c := by
      intro a b c hab hbc
      simp only [hle, decide_eq_true_eq] at *
      omega
    have htotal : ∀ a b, le a b || le b a := by
      intro a b
      simp only [hle, Bool.or_eq_true, decide_eq_true_eq]
      omega
    have hsorted := List.sorted_mergeSort htrans htotal (c :: cs)
    have hperm := List.mergeSort_perm (c :: cs) le
    obtain ⟨h, t, hht⟩ : ∃ h t, (c :: cs).mergeSort le = h :: t := by
      cases hms : (c :: cs).mergeSort le with
      | nil =>
          have := hperm.length_eq
          rw [hms] at this
          simp at this
      | cons h t => exact ⟨h, t, rfl⟩
    refine ⟨h, ?_, ?_, ?_⟩
    · have : h ∈ (c :: cs).mergeSort le := by rw [hht]; exact List.mem_cons_self _ _
      exact (List.mem_mergeSort).mp this
    · show ArchivedChatFetcher.getBestThumbnail (some (c :: cs)) = some h.url
      simp [ArchivedChatFetcher.getBestThumbnail, ← hle, hht]
    · intro t2 ht2
      have ht2' : t2 ∈ (c :: cs).mergeSort le := List.mem_mergeSort.mpr ht2
      rw [hht] at ht2' hsorted
      rcases List.mem_cons.mp ht2' with h1 | h1
      · subst h1
        exact le_refl _
      · have := (List.pairwise_cons.mp hsorted).1 t2 h1
        simpa [hle] using this
  refine ⟨gen, ?_, rfl, rfl⟩
  obtain ⟨t, ht, hres, hmax⟩ := gen
    [{ url := "a", width := some 32 }, { url := "b", width := some 64 }, { url := "c" }]
    (by simp)
  have h64 := hmax { url := "b", width := some 64 } (by simp)
  simp only [List.mem_cons, List.not_mem_nil, or_false] at ht
  rcases ht with h1 | h1 | h1
  · rw [h1] at h64; simp at h64
  · rw [hres, h1]
  · rw [h1] at h64; simp at h64

/-- Witness for C9: the general width-maximal selection property applied
at the concrete three-element thumbnail list. -/
theorem C9_getBestThumbnail_correct_witness :
    ∃ t ∈ [({ url := "a", width := some 32 } : ArchivedChatFetcher.Thumbnail),
        { url := "b", width := some 64 }, { url := "c" }],
      ArchivedChatFetcher.getBestThumbnail
        (some [{ url := "a", width := some 32 }, { url := "b", width := some 64 },
          { url := "c" }]) = some t.url ∧
      ∀ t2 ∈ [({ url := "a", width := some 32 } : ArchivedChatFetcher.Thumbnail),
          { url := "b", width := some 64 }, { url := "c" }],
        t2.width.getD 0 ≤ t.width.getD 0 :=
  C9_getBestThumbnail_correct.1 _ (by simp)

/-- The segment partition written out: converting the per-index
`floor (i * (D / 10))` form of the source into `floor (i * D / 10)`
(exact rational arithmetic; `i * (D / 10) = i * D / 10` in `ℚ`). -/
theorem segmentsOf_explicit (D : Int) :
    ArchivedChatFetcher.segmentsOf D =
      [(0, ⌊(D : ℚ) / 10⌋), (⌊(D : ℚ) / 10⌋, ⌊(2 * D : ℚ) / 10⌋),
        (⌊(2 * D : ℚ) / 10⌋, ⌊(3 * D : ℚ) / 10⌋),
        (⌊(3 * D : ℚ) / 10⌋, ⌊(4 * D : ℚ) / 10⌋),
        (⌊(4 * D : ℚ) / 10⌋, ⌊(5 * D : ℚ) / 10⌋),
        (⌊(5 * D : ℚ) / 10⌋, ⌊(6 * D : ℚ) / 10⌋),
        (⌊(6 * D : ℚ) / 10⌋, ⌊(7 * D : ℚ) / 10⌋),
        (⌊(7 * D : ℚ) / 10⌋, ⌊(8 * D : ℚ) / 10⌋),
        (⌊(8 * D : ℚ) / 10⌋, ⌊(9 * D : ℚ) / 10⌋),
        (⌊(9 * D : ℚ) / 10⌋, D + 60000)] := by
  unfold ArchivedChatFetcher.segmentsOf ArchivedChatFetcher.PARALLEL_WORKERS
  simp only [List.range_succ, List.range_zero, List.nil_append, List.cons_append,
    List.map_cons, List.map_nil, List.set]
  norm_num [mul_div_assoc]

/-- Auxiliary to the gap-free-cover statement of C6: any point below the
`k`-th segment boundary lies inside one of the first `k` nominal
segments. -/
theorem segment_cover_aux (D : Int) (x : Int) (hx : 0 ≤ x) :
    ∀ k : Nat, x < ⌊(k * D : ℚ) / 10⌋ →
      ∃ i : Nat, i < k ∧ ⌊(i * D : ℚ) / 10⌋ ≤ x ∧ x < ⌊((i + 1 : Nat) * D : ℚ) / 10⌋ := by
  intro k
  induction k with
  | zero =>
      intro hlt
      norm_num at hlt
      omega
  | succ k ih =>
      intro hlt
      by_cases h : x < ⌊(k * D : ℚ) / 10⌋
      · obtain ⟨i, hik, h1, h2⟩ := ih h
        exact ⟨i, by omega, h1, h2⟩
      · push_neg at h
        refine ⟨k, by omega, h, ?_⟩
        have : ((k + 1 : Nat) : ℚ) = (k : ℚ) + 1 := by push_cast; ring
        rw [this] at hlt ⊢
        exact hlt

/-- C6: for 10 workers and any positive duration `D` (ms), the computed
segments are a gap-free cover of `[0, D]`: segment `i` is
`[floor (i*D/10), floor ((i+1)*D/10))` for `i < 9`, each segment's start
equals the previous segment's end, segment 9 ends at `D + 60000`, the
first start is 0, every point of `[0, D]` lies in some segment, and for
`D = 600000` the segments are exactly the listed 60-second slices. -/
theorem C6_segments_correct :
    (∀ D : Int, 0 < D →
      ((ArchivedChatFetcher.segmentsOf D).length = 10) ∧
      (∀ i : Nat, i < 9 →
        (ArchivedChatFetcher.segmentsOf D)[i]! =
          (⌊(i * D : ℚ) / 10⌋, ⌊((i + 1 : Nat) * D : ℚ) / 10⌋)) ∧
      (∀ i : Nat, i < 9 →
        ((ArchivedChatFetcher.segmentsOf D)[i + 1]!).1 =
          ((ArchivedChatFetcher.segmentsOf D)[i]!).2) ∧
      ((ArchivedChatFetcher.segmentsOf D)[9]! = (⌊(9 * D : ℚ) / 10⌋, D + 60000)) ∧
      (((ArchivedChatFetcher.segmentsOf D)[0]!).1 = 0) ∧
      (∀ x : Int, 0 ≤ x → x ≤ D →
        ∃ s ∈ ArchivedChatFetcher.segmentsOf D, s.1 ≤ x ∧ x < s.2)) ∧
    ArchivedChatFetcher.segmentsOf 600000 =
      [(0, 60000), (60000, 120000), (120000, 180000), (180000, 240000),
        (240000, 300000), (300000, 360000), (360000, 420000), (420000, 480000),
        (480000, 540000), (540000, 660000)] := by
  constructor
  · intro D hD
    refine ⟨?_, ?_, ?_, ?_, ?_, ?_⟩
    · rw [segmentsOf_explicit]; rfl
    · intro i hi
      rw [segmentsOf_explicit]
      interval_cases i <;> · push_cast; norm_num
    · intro i hi
      rw [segmentsOf_explicit]
      interval_cases i <;> simp
    · rw [segmentsOf_explicit]
      norm_num
    · rw [segmentsOf_explicit]; rfl
    · intro x hx hxD
      by_cases hlast : x < ⌊(9 * D : ℚ) / 10⌋
      · obtain ⟨i, hi9, h1, h2⟩ :=
          segment_cover_aux D x hx 9 (by push_cast at hlast ⊢; exact hlast)
        refine ⟨(⌊(i * D : ℚ) / 10⌋, ⌊((i + 1 : Nat) * D : ℚ) / 10⌋), ?_, h1, h2⟩
        rw [segmentsOf_explicit]
        interval_cases i <;> · push_cast; norm_num
      · push_neg at hlast
        refine ⟨(⌊(9 * D : ℚ) / 10⌋, D + 60000), ?_, hlast, by omega⟩
        rw [segmentsOf_explicit]
        simp
  · rw [segmentsOf_explicit]
    norm_num

/-- Witness for C6: the per-index segment formula applied at duration
600000 ms and index 3. -/
theorem C6_segments_correct_witness :
    (ArchivedChatFetcher.segmentsOf 600000)[3]! =
      (⌊((3 : Nat) * 600000 : ℚ) / 10⌋, ⌊(((3 : Nat) + 1 : Nat) * 600000 : ℚ) / 10⌋) :=
  ((C6_segments_correct.1 600000 (by norm_num)).2.1) 3 (by norm_num)

/-- C4 counterexample: the claim asserts that viewer-engagement items are
suppressed under the same rule as text items, including suppression of
pure-whitespace content.  At these concrete inputs the code disagrees
twice: an engagement renderer whose single run is the whitespace string
`" "` decodes to a message (whitespace is truthy, so it is not
suppressed), and for the identical run list `[emoji with empty id]` the
text renderer decodes to a message while the engagement renderer decodes
to `null` (the engagement rule ignores the rich-run list, so it is not
the same rule). -/
theorem C4_counterexample :
    (ArchivedChatFetcher.parseItem
      { liveChatViewerEngagementMessageRenderer :=
          some { id := "e1", message := some [{ text := some " " }] } } 0 0).isSome = true ∧
    (ArchivedChatFetcher.parseItem
      { liveChatTextMessageRenderer :=
          some { id := "t1", message := some [{ emoji := some { emojiId := some "" } }] } }
      0 1).isSome = true ∧
    ArchivedChatFetcher.parseItem
      { liveChatViewerEngagementMessageRenderer :=
          some { id := "e2", message := some [{ emoji := some { emojiId := some "" } }] } }
      0 2 = none := by
  refine ⟨?_, ?_, ?_⟩ <;> rfl

/-- C4 (amended): a text-type renderer item decodes to `null` exactly when
its runs yield both an empty plain text and an empty rich-run list; a
viewer-engagement item decodes to `null` exactly when its plain text is
empty (its rich-run list is not consulted).  Only the empty string counts
as "no content": pure-whitespace text is truthy in the source, so it is
not suppressed for either kind. -/
theorem C4_suppression_amended :
    (∀ (r : ArchivedChatFetcher.LiveChatRenderer) (t : ℚ) (i : Nat),
      ArchivedChatFetcher.parseItem { liveChatTextMessageRenderer := some r } t i = none ↔
        ((ArchivedChatFetcher.parseMessageRuns r.message).1 = "" ∧
          (ArchivedChatFetcher.parseMessageRuns r.message).2 = [])) ∧
    (∀ (r : ArchivedChatFetcher.LiveChatEngagementRenderer) (t : ℚ) (i : Nat),
      ArchivedChatFetcher.parseItem
          { liveChatViewerEngagementMessageRenderer := some r } t i = none ↔
        (ArchivedChatFetcher.parseMessageRuns r.message).1 = "") := by
  constructor
  · intro r t i
    rcases hpm : ArchivedChatFetcher.parseMessageRuns r.message with ⟨text, runs⟩
    simp only [ArchivedChatFetcher.parseItem, hpm]
    by_cases h : text = "" ∧ runs.length = 0
    · simp only [if_pos h]
      simpa [List.length_eq_zero] using h
    · simp only [if_neg h]
      simp only [List.length_eq_zero] at h
      tauto
  · intro r t i
    rcases hpm : ArchivedChatFetcher.parseMessageRuns r.message with ⟨text, runs⟩
    simp only [ArchivedChatFetcher.parseItem, hpm]
    by_cases h : text = ""
    · simp [if_pos h, h]
    · simp [if_neg h, h]

/-- C10: decoding a paid-message, paid-sticker, membership, or
gift-purchase renderer item never returns `null` — in both the archived
and the live decoder — and when the renderer's message runs flatten to no
text the produced message is the corresponding placeholder:
`"(Super Chat)"`, `"(Super Sticker)"` (always), the header text falling
back to `"(New Member)"`, and `"(Gift Membership)"`.  Content-based
suppression thus applies only to the text and viewer-engagement kinds. -/
theorem C10_paid_renderers_never_null :
    (∀ (r : ArchivedChatFetcher.LiveChatPaidRenderer) (t : ℚ) (i : Nat),
      (ArchivedChatFetcher.parseItem
        { liveChatPaidMessageRenderer := some r } t i).isSome = true ∧
      (LiveChatFetcher.parseItem { liveChatPaidMessageRenderer := some r } i).isSome = true ∧
      ((ArchivedChatFetcher.parseMessageRuns r.message).1 = "" →
        (ArchivedChatFetcher.parseItem
            { liveChatPaidMessageRenderer := some r } t i).map Schemas.ChatMessage.message =
            some "(Super Chat)" ∧
        (LiveChatFetcher.parseItem
            { liveChatPaidMessageRenderer := some r } i).map Schemas.ChatMessage.message =
            some "(Super Chat)")) ∧
    (∀ (r : ArchivedChatFetcher.LiveChatStickerRenderer) (t : ℚ) (i : Nat),
      (ArchivedChatFetcher.parseItem
          { liveChatPaidStickerRenderer := some r } t i).map Schemas.ChatMessage.message =
          some "(Super Sticker)" ∧
      (LiveChatFetcher.parseItem
          { liveChatPaidStickerRenderer := some r } i).map Schemas.ChatMessage.message =
          some "(Super Sticker)") ∧
    (∀ (r : ArchivedChatFetcher.LiveChatMembershipRenderer) (t : ℚ) (i : Nat),
      (ArchivedChatFetcher.parseItem
        { liveChatMembershipItemRenderer := some r } t i).isSome = true ∧
      (LiveChatFetcher.parseItem { liveChatMembershipItemRenderer := some r } i).isSome = true ∧
      ((ArchivedChatFetcher.parseMessageRuns r.message).1 = "" →
        (ArchivedChatFetcher.parseItem
            { liveChatMembershipItemRenderer := some r } t i).map Schemas.ChatMessage.message =
            some (ArchivedChatFetcher.jsOr
              (some (ArchivedChatFetcher.parseMessageRuns r.headerSubtext).1) "(New Member)") ∧
        (LiveChatFetcher.parseItem
            { liveChatMembershipItemRenderer := some r } i).map Schemas.ChatMessage.message =
            some (ArchivedChatFetcher.jsOr
              (some (ArchivedChatFetcher.parseMessageRuns r.headerSubtext).1) "(New Member)"))) ∧
    (∀ (r : ArchivedChatFetcher.LiveChatGiftRenderer) (t : ℚ) (i : Nat),
      (ArchivedChatFetcher.parseItem
        { liveChatSponsorshipsGiftPurchaseAnnouncementRenderer := some r } t i).isSome = true ∧
      (LiveChatFetcher.parseItem
        { liveChatSponsorshipsGiftPurchaseAnnouncementRenderer := some r } i).isSome = true ∧
      ((ArchivedChatFetcher.parseMessageRuns r.headerPrimaryTextRuns).1 = "" →
        (ArchivedChatFetcher.parseItem
            { liveChatSponsorshipsGiftPurchaseAnnouncementRenderer := some r } t i).map
            Schemas.ChatMessage.message = some "(Gift Membership)" ∧
        (LiveChatFetcher.parseItem
            { liveChatSponsorshipsGiftPurchaseAnnouncementRenderer := some r } i).map
            Schemas.ChatMessage.message = some "(Gift Membership)")) := by
  refine ⟨?_, ?_, ?_, ?_⟩
  · intro r t i
    rcases hpm : ArchivedChatFetcher.parseMessageRuns r.message with ⟨text, runs⟩
    refine ⟨?_, ?_, ?_⟩
    · simp [ArchivedChatFetcher.parseItem, hpm]
    · simp [LiveChatFetcher.parseItem, hpm]
    · intro h
      simp only at h
      subst h
      constructor
      · simp [ArchivedChatFetcher.parseItem, hpm, ArchivedChatFetcher.jsOr]
      · simp [LiveChatFetcher.parseItem, hpm, ArchivedChatFetcher.jsOr]
  · intro r t i
    constructor
    · simp [ArchivedChatFetcher.parseItem]
    · simp [LiveChatFetcher.parseItem]
  · intro r t i
    rcases hpm : ArchivedChatFetcher.parseMessageRuns r.message with ⟨text, runs⟩
    rcases hph : ArchivedChatFetcher.parseMessageRuns r.headerSubtext with ⟨headerText, hruns⟩
    refine ⟨?_, ?_, ?_⟩
    · simp [ArchivedChatFetcher.parseItem, hpm, hph]
    · simp [LiveChatFetcher.parseItem, hpm, hph]
    · intro h
      simp only at h
      subst h
      constructor
      · simp [ArchivedChatFetcher.parseItem, hpm, hph, ArchivedChatFetcher.jsOr]
      · simp [LiveChatFetcher.parseItem, hpm, hph, ArchivedChatFetcher.jsOr]
  · intro r t i
    rcases hpm : ArchivedChatFetcher.parseMessageRuns r.headerPrimaryTextRuns with ⟨text, runs⟩
    refine ⟨?_, ?_, ?_⟩
    · simp [ArchivedChatFetcher.parseItem, hpm]
    · simp [LiveChatFetcher.parseItem, hpm]
    · intro h
      simp only at h
      subst h
      constructor
      · simp [ArchivedChatFetcher.parseItem, hpm, ArchivedChatFetcher.jsOr]
      · simp [LiveChatFetcher.parseItem, hpm, ArchivedChatFetcher.jsOr]

/-- Witness for C10: the placeholder branches applied at concrete
empty-run renderers (paid message with absent runs, membership with
empty header and absent body, gift with absent header runs). -/
theorem C10_paid_renderers_never_null_witness :
    ((ArchivedChatFetcher.parseMessageRuns
        (({ id := "p1" } : ArchivedChatFetcher.LiveChatPaidRenderer)).message).1 = "" ∧
      (ArchivedChatFetcher.parseItem
          { liveChatPaidMessageRenderer := some (({ id := "p1" } : ArchivedChatFetcher.LiveChatPaidRenderer)) }
          5 0).map Schemas.ChatMessage.message = some "(Super Chat)") ∧
    ((ArchivedChatFetcher.parseMessageRuns
        (({ id := "g1" } : ArchivedChatFetcher.LiveChatGiftRenderer)).headerPrimaryTextRuns).1 = "" ∧
      (LiveChatFetcher.parseItem
          { liveChatSponsorshipsGiftPurchaseAnnouncementRenderer :=
              some (({ id := "g1" } : ArchivedChatFetcher.LiveChatGiftRenderer)) } 1).map
          Schemas.ChatMessage.message = some "(Gift Membership)") := by
  refine ⟨⟨rfl, ?_⟩, ⟨rfl, ?_⟩⟩
  · exact ((C10_paid_renderers_never_null.1
      (({ id := "p1" } : ArchivedChatFetcher.LiveChatPaidRenderer)) 5 0).2.2 rfl).1
  · exact ((C10_paid_renderers_never_null.2.2.2
      (({ id := "g1" } : ArchivedChatFetcher.LiveChatGiftRenderer)) 0 1).2.2 rfl).2

namespace ArchivedChatFetcher

theorem mergeGo_acc (ms : List ChatMessage) :
    ∀ (acc : List ChatMessage) (seen : List String),
      mergeWorkerResults.go ms acc seen = acc ++ mergeWorkerResults.go ms [] seen := by
  induction ms with
  | nil => intro acc seen; simp [mergeWorkerResults.go]
  | cons msg rest ih =>
      intro acc seen
      by_cases h : msg.id ∈ seen
      · simp only [mergeWorkerResults.go, if_pos h]
        exact ih acc seen
      · simp only [mergeWorkerResults.go, if_neg h, List.nil_append]
        rw [ih (acc ++ [msg]), ih [msg]]
        simp

theorem mergeGo_find (ms : List ChatMessage) :
    ∀ (seen : List String) (m : ChatMessage), m ∈ mergeWorkerResults.go ms [] seen →
      m.id ∉ seen ∧ ms.find? (fun m2 => m2.id = m.id) = some m := by
  induction ms with
  | nil => intro seen m hm; simp [mergeWorkerResults.go] at hm
  | cons msg rest ih =>
      intro seen m hm
      by_cases h : msg.id ∈ seen
      · simp only [mergeWorkerResults.go, if_pos h] at hm
        obtain ⟨h1, h2⟩ := ih seen m hm
        refine ⟨h1, ?_⟩
        rw [List.find?_cons_of_neg, h2]
        intro hc
        simp only [decide_eq_true_eq] at hc
        exact h1 (hc ▸ h)
      · simp only [mergeWorkerResults.go, if_neg h, List.nil_append] at hm
        rw [mergeGo_acc] at hm
        simp only [List.singleton_append, List.mem_cons] at hm
        rcases hm with rfl | hm
        · exact ⟨h, by simp⟩
        · obtain ⟨h1, h2⟩ := ih (msg.id :: seen) m hm
          simp only [List.mem_cons, not_or] at h1
          refine ⟨h1.2, ?_⟩
          rw [List.find?_cons_of_neg, h2]
          simp only [decide_eq_true_eq]
          exact fun hc => h1.1 hc.symm

theorem mergeGo_nodup (ms : List ChatMessage) :
    ∀ seen : List String,
      ((mergeWorkerResults.go ms [] seen).map (fun m => m.id)).Nodup := by
  induction ms with
  | nil => intro seen; simp [mergeWorkerResults.go]
  | cons msg rest ih =>
      intro seen
      by_cases h : msg.id ∈ seen
      · simp only [mergeWorkerResults.go, if_pos h]
        exact ih seen
      · simp only [mergeWorkerResults.go, if_neg h, List.nil_append]
        rw [mergeGo_acc]
        simp only [List.singleton_append, List.map_cons, List.nodup_cons]
        refine ⟨?_, ih (msg.id :: seen)⟩
        intro hc
        obtain ⟨m, hm, hmid⟩ := List.mem_map.mp hc
        have := (mergeGo_find rest (msg.id :: seen) m hm).1
        simp only [List.mem_cons, not_or] at this
        exact this.1 hmid

theorem mergeGo_covers (ms : List ChatMessage) :
    ∀ (seen : List String) (m : ChatMessage), m ∈ ms →
      m.id ∈ seen ∨ ∃ m2 ∈ mergeWorkerResults.go ms [] seen, m2.id = m.id := by
  induction ms with
  | nil => intro seen m hm; simp at hm
  | cons msg rest ih =>
      intro seen m hm
      rcases List.mem_cons.mp hm with rfl | hm'
      · by_cases h : m.id ∈ seen
        · exact Or.inl h
        · refine Or.inr ⟨m, ?_, rfl⟩
          simp only [mergeWorkerResults.go, if_neg h, List.nil_append]
          rw [mergeGo_acc]
          simp
      · by_cases h : msg.id ∈ seen
        · rcases ih seen m hm' with h1 | ⟨m2, hm2, hid⟩
          · exact Or.inl h1
          · refine Or.inr ⟨m2, ?_, hid⟩
            simpa only [mergeWorkerResults.go, if_pos h] using hm2
        · rcases ih (msg.id :: seen) m hm' with h1 | ⟨m2, hm2, hid⟩
          · rcases List.mem_cons.mp h1 with heq | hmem
            · refine Or.inr ⟨msg, ?_, heq.symm⟩
              simp only [mergeWorkerResults.go, if_neg h, List.nil_append]
              rw [mergeGo_acc]
              simp
            · exact Or.inl hmem
          · refine Or.inr ⟨m2, ?_, hid⟩
            simp only [mergeWorkerResults.go, if_neg h, List.nil_append]
            rw [mergeGo_acc]
            simp only [List.singleton_append, List.mem_cons]
            exact Or.inr hm2

/-- `find?` by a projection returns the element itself when the projected
values are pairwise distinct. -/
theorem find?_proj_of_nodup {α β : Type} [DecidableEq β] (f : α → β) (l : List α)
    (hnd : (l.map f).Nodup) (m : α) (hm : m ∈ l) :
    l.find? (fun x => f x = f m) = some m := by
  induction l with
  | nil => simp at hm
  | cons a rest ih =>
      simp only [List.map_cons, List.nodup_cons] at hnd
      rcases List.mem_cons.mp hm with rfl | hm'
      · simp
      · rw [List.find?_cons_of_neg, ih hnd.2 hm']
        simp only [decide_eq_true_eq]
        intro hc
        exact hnd.1 (hc ▸ List.mem_map_of_mem f hm')

end ArchivedChatFetcher

/-- C5 counterexample: the claim quantifies over every seeded first-page
message list, but the merge seeds the first page into the output without
deduplicating the first page against itself.  With a first page holding
two distinct messages that share id `"x"` (and no workers), the merged
result contains two entries with id `"x"`, so it does not hold at most
one message per id. -/
theorem C5_counterexample :
    ¬ (((ArchivedChatFetcher.mergeWorkerResults
        [{ id := "x", type := .text, timestamp := 1, author := "a", message := "hello" },
          { id := "x", type := .text, timestamp := 2, author := "b", message := "world" }]
        []).map (fun m => m.id)).Nodup) := by
  intro hc
  set L : List Schemas.ChatMessage :=
    [{ id := "x", type := .text, timestamp := 1, author := "a", message := "hello" },
      { id := "x", type := .text, timestamp := 2, author := "b", message := "world" }] with hL
  have h1 : ArchivedChatFetcher.mergeWorkerResults L [] =
      L.mergeSort (fun a b => a.timestamp ≤ b.timestamp) := by
    simp [ArchivedChatFetcher.mergeWorkerResults, ArchivedChatFetcher.mergeWorkerResults.go]
  rw [h1] at hc
  have hperm := (List.mergeSort_perm L (fun a b => a.timestamp ≤ b.timestamp)).map
    (fun m => m.id)
  rw [hperm.nodup_iff] at hc
  simp [hL] at hc

/-- C5 (amended): provided the seeded first-page message list has pairwise
distinct ids (as the source's per-response ids and strictly increasing
fallback counter provide), the archived-fetch merge result contains at
most one message per id, the entry kept for each id is the first
occurrence of that id in the stream of first-page messages followed by
the worker messages in ascending-start-offset worker order (so first-page
messages take precedence and among workers the first seen wins), and
every input id is represented. -/
theorem C5_merge_dedup_amended :
    ∀ (allMessages : List Schemas.ChatMessage)
      (workerResults : List ArchivedChatFetcher.SegmentWorkerResult),
      (allMessages.map (fun m => m.id)).Nodup →
      (((ArchivedChatFetcher.mergeWorkerResults allMessages workerResults).map
          (fun m => m.id)).Nodup) ∧
      (∀ m ∈ ArchivedChatFetcher.mergeWorkerResults allMessages workerResults,
        (allMessages ++
            ((workerResults.mergeSort fun a b => a.startOffsetMs ≤ b.startOffsetMs).map
              ArchivedChatFetcher.SegmentWorkerResult.messages).flatten).find?
          (fun m2 => m2.id = m.id) = some m) ∧
      (∀ m ∈ allMessages ++
            ((workerResults.mergeSort fun a b => a.startOffsetMs ≤ b.startOffsetMs).map
              ArchivedChatFetcher.SegmentWorkerResult.messages).flatten,
        ∃ m2 ∈ ArchivedChatFetcher.mergeWorkerResults allMessages workerResults,
          m2.id = m.id) := by
  intro allMessages workerResults hnd
  set seen := allMessages.map (fun m => m.id) with hseen
  set ws := ((workerResults.mergeSort fun a b => a.startOffsetMs ≤ b.startOffsetMs).map
    ArchivedChatFetcher.SegmentWorkerResult.messages).flatten with hws
  set e := ArchivedChatFetcher.mergeWorkerResults.go ws [] seen with he
  have hmerge : ArchivedChatFetcher.mergeWorkerResults allMessages workerResults =
      (allMessages ++ e).mergeSort (fun a b => a.timestamp ≤ b.timestamp) := by
    simp only [ArchivedChatFetcher.mergeWorkerResults]
    rw [ArchivedChatFetcher.mergeGo_acc]
  have hmem : ∀ m, m ∈ ArchivedChatFetcher.mergeWorkerResults allMessages workerResults ↔
      m ∈ allMessages ++ e := by
    intro m
    rw [hmerge]
    exact List.mem_mergeSort
  refine ⟨?_, ?_, ?_⟩
  · rw [hmerge]
    have hperm := (List.mergeSort_perm (allMessages ++ e)
      (fun a b => a.timestamp ≤ b.timestamp)).map (fun m => m.id)
    rw [hperm.nodup_iff, List.map_append, List.nodup_append]
    refine ⟨hnd, ArchivedChatFetcher.mergeGo_nodup ws seen, ?_⟩
    intro a ha hb
    obtain ⟨m, hm, hmid⟩ := List.mem_map.mp hb
    have := (ArchivedChatFetcher.mergeGo_find ws seen m hm).1
    rw [hmid] at this
    exact this ha
  · intro m hm
    rw [hmem] at hm
    rw [List.find?_append]
    rcases List.mem_append.mp hm with hall | hgo
    · rw [ArchivedChatFetcher.find?_proj_of_nodup (fun m => m.id) allMessages hnd m hall]
      rfl
    · obtain ⟨hid, hfind⟩ := ArchivedChatFetcher.mergeGo_find ws seen m hgo
      have hnone : allMessages.find? (fun m2 => m2.id = m.id) = none := by
        rw [List.find?_eq_none]
        intro x hx hpx
        simp only [decide_eq_true_eq] at hpx
        exact hid (hseen ▸ (hpx ▸ List.mem_map_of_mem (fun m => m.id) hx))
      rw [hnone, hfind]
      rfl
  · intro m hm
    rcases List.mem_append.mp hm with hall | hws'
    · exact ⟨m, (hmem m).mpr (List.mem_append.mpr (Or.inl hall)), rfl⟩
    · rcases ArchivedChatFetcher.mergeGo_covers ws seen m hws' with hin | ⟨m2, hm2, hid⟩
      · obtain ⟨x, hx, hxid⟩ := List.mem_map.mp (hseen ▸ hin)
        exact ⟨x, (hmem x).mpr (List.mem_append.mpr (Or.inl hx)), hxid⟩
      · exact ⟨m2, (hmem m2).mpr (List.mem_append.mpr (Or.inr hm2)), hid⟩

/-- Witness for C5: the amended dedup property applied at a concrete
nodup first page plus two workers that both return a message with id
`"x"` at different timestamps. -/
theorem C5_merge_dedup_amended_witness :
    (((ArchivedChatFetcher.mergeWorkerResults
        [{ id := "f", type := .text, timestamp := 0, author := "a", message := "first" }]
        [⟨0, [{ id := "x", type := .text, timestamp := 1, author := "b", message := "m1" }], 1, 0, 10⟩,
          ⟨1, [{ id := "x", type := .text, timestamp := 2, author := "c", message := "m2" }], 1, 10, 20⟩]).map
        (fun m => m.id)).Nodup) ∧
    (∀ m ∈ ArchivedChatFetcher.mergeWorkerResults
        [{ id := "f", type := .text, timestamp := 0, author := "a", message := "first" }]
        [⟨0, [{ id := "x", type := .text, timestamp := 1, author := "b", message := "m1" }], 1, 0, 10⟩,
          ⟨1, [{ id := "x", type := .text, timestamp := 2, author := "c", message := "m2" }], 1, 10, 20⟩],
      ([({ id := "f", type := .text, timestamp := 0, author := "a", message := "first" } : Schemas.ChatMessage)] ++
          (([⟨0, [{ id := "x", type := .text, timestamp := 1, author := "b", message := "m1" }], 1, 0, 10⟩,
              (⟨1, [{ id := "x", type := .text, timestamp := 2, author := "c", message := "m2" }], 1, 10, 20⟩ :
                ArchivedChatFetcher.SegmentWorkerResult)].mergeSort
              fun a b => a.startOffsetMs ≤ b.startOffsetMs).map
            ArchivedChatFetcher.SegmentWorkerResult.messages).flatten).find?
        (fun m2 => m2.id = m.id) = some m) ∧
    (∀ m ∈ [({ id := "f", type := .text, timestamp := 0, author := "a", message := "first" } : Schemas.ChatMessage)] ++
          (([⟨0, [{ id := "x", type := .text, timestamp := 1, author := "b", message := "m1" }], 1, 0, 10⟩,
              (⟨1, [{ id := "x", type := .text, timestamp := 2, author := "c", message := "m2" }], 1, 10, 20⟩ :
                ArchivedChatFetcher.SegmentWorkerResult)].mergeSort
              fun a b => a.startOffsetMs ≤ b.startOffsetMs).map
            ArchivedChatFetcher.SegmentWorkerResult.messages).flatten,
      ∃ m2 ∈ ArchivedChatFetcher.mergeWorkerResults
          [{ id := "f", type := .text, timestamp := 0, author := "a", message := "first" }]
          [⟨0, [{ id := "x", type := .text, timestamp := 1, author := "b", message := "m1" }], 1, 0, 10⟩,
            ⟨1, [{ id := "x", type := .text, timestamp := 2, author := "c", message := "m2" }], 1, 10, 20⟩],
        m2.id = m.id) :=
  C5_merge_dedup_amended _ _ (by simp)

/-- C7: for every non-empty set of worker outputs, the message list
returned by the archived-fetch merge is sorted in non-decreasing order of
the timestamp field. -/
theorem C7_merge_sorted :
    ∀ (allMessages : List Schemas.ChatMessage)
      (workerResults : List ArchivedChatFetcher.SegmentWorkerResult),
      workerResults ≠ [] →
      (ArchivedChatFetcher.mergeWorkerResults allMessages workerResults).Pairwise
        (fun a b => a.timestamp ≤ b.timestamp) := by
  intro allMessages workerResults _
  unfold ArchivedChatFetcher.mergeWorkerResults
  refine List.Pairwise.imp ?_ (List.sorted_mergeSort ?_ ?_ _)
  · intro a b hab
    simpa using hab
  · intro a b c hab hbc
    simp only [decide_eq_true_eq] at *
    exact le_trans hab hbc
  · intro a b
    simp only [Bool.or_eq_true, decide_eq_true_eq]
    exact le_total _ _

/-- Witness for C7: sortedness applied at a concrete singleton worker
output set. -/
theorem C7_merge_sorted_witness :
    (ArchivedChatFetcher.mergeWorkerResults []
        [⟨0, [{ id := "x", type := .text, timestamp := 1, author := "b", message := "m1" }], 1, 0, 10⟩]).Pairwise
      (fun a b => a.timestamp ≤ b.timestamp) :=
  C7_merge_sorted [] _ (by simp)

namespace ArchivedChatFetcher

theorem rdLoop_cons (acc : List Char) (c : Char) (rest : List Char) (depth : Int) :
    rdLoop acc (c :: rest) depth false =
      if c = '"' then rdLoop (c :: acc) rest depth true
      else if c = '{' ∨ c = '[' then rdLoop (c :: acc) rest (depth + 1) false
      else if c = '}' ∨ c = ']' then
        if depth - 1 = 0 then
          match Json.parse ((c :: acc).reverse) with
          | some obj => some (obj, (c :: acc).length)
          | none => rdLoop (c :: acc) rest (depth - 1) false
        else rdLoop (c :: acc) rest (depth - 1) false
      else rdLoop (c :: acc) rest depth false := by
  conv_lhs => rw [rdLoop.eq_def]
  rfl

theorem rdLoop_cons_inStr (acc : List Char) (c : Char) (rest : List Char) (depth : Int) :
    rdLoop acc (c :: rest) depth true =
      if c = '\\' then
        match rest with
        | [] => none
        | c2 :: rest2 => rdLoop (c2 :: c :: acc) rest2 depth true
      else if c = '"' then rdLoop (c :: acc) rest depth false
      else rdLoop (c :: acc) rest depth true := by
  conv_lhs => rw [rdLoop.eq_def]
  rfl

theorem scanValue_nil : ScanValue [] := by
  intro t acc d _
  rfl

theorem scanValue_append {w1 w2 : List Char} (h1 : ScanValue w1) (h2 : ScanValue w2) :
    ScanValue (w1 ++ w2) := by
  intro t acc d hd
  rw [List.append_assoc, h1 (w2 ++ t) acc d hd, h2 t _ d hd]
  simp [List.reverse_append]

theorem scanValue_close {w1 w2 : List Char} (h1 : ScanValue w1) (h2 : ScanClose w2) :
    ScanClose (w1 ++ w2) := by
  intro t acc d hd
  rw [List.append_assoc, h1 (w2 ++ t) acc d hd, h2 t _ d hd]
  have hs : (w1.reverse ++ acc).reverse = acc.reverse ++ w1 := by simp
  by_cases hd1 : d = 1
  · rw [if_pos hd1, if_pos hd1, hs, List.append_assoc]
    match Json.parse (acc.reverse ++ (w1 ++ w2)) with
    | some obj => rfl
    | none => simp [List.reverse_append, List.append_assoc]
  · rw [if_neg hd1, if_neg hd1]
    simp [List.reverse_append, List.append_assoc]

theorem scanClose_single {c : Char} (h : c = '}' ∨ c = ']') : ScanClose [c] := by
  intro t acc d hd
  have hq : ¬ c = '"' := by rcases h with rfl | rfl <;> decide
  have ho : ¬ (c = '{' ∨ c = '[') := by rcases h with rfl | rfl <;> decide
  rw [List.singleton_append, rdLoop_cons, if_neg hq, if_neg ho, if_pos h]
  by_cases hd1 : d = 1
  · rw [if_pos (show d - 1 = 0 from by omega), if_pos hd1,
      (show d - 1 = 0 from by omega)]
    simp
  · rw [if_neg (show ¬ (d - 1 = 0) from by omega), if_neg hd1]
    simp

theorem scanValue_openClose {c : Char} {w : List Char} (hc : c = '{' ∨ c = '[')
    (h : ScanClose w) : ScanValue (c :: w) := by
  intro t acc d hd
  have hq : ¬ c = '"' := by rcases hc with rfl | rfl <;> decide
  rw [List.cons_append, rdLoop_cons, if_neg hq, if_pos hc,
    h t (c :: acc) (d + 1) (by omega), if_neg (by omega : ¬ (d + 1 = 1))]
  have h2 : d + 1 - 1 = d := by omega
  rw [h2]
  simp

theorem scanValue_quote {w : List Char} (h : ScanStrBody w) : ScanValue ('"' :: w) := by
  intro t acc d _
  rw [List.cons_append, rdLoop_cons, if_pos rfl, h t ('"' :: acc) d]
  simp

theorem scanValue_plainChar {c : Char} (h : plainChar c = true) : ScanValue [c] := by
  intro t acc d _
  have h' : ¬(c = '"' ∨ c = '{' ∨ c = '[' ∨ c = '}' ∨ c = ']') := by
    simpa [plainChar] using h
  push_neg at h'
  obtain ⟨h1, h2, h3, h4, h5⟩ := h'
  rw [List.singleton_append, rdLoop_cons, if_neg h1,
    if_neg (by tauto : ¬ (c = '{' ∨ c = '[')), if_neg (by tauto : ¬ (c = '}' ∨ c = ']'))]
  simp

theorem scanValue_plain {w : List Char} (h : ∀ c ∈ w, plainChar c = true) :
    ScanValue w := by
  induction w with
  | nil => exact scanValue_nil
  | cons c rest ih =>
      have hsplit : (c :: rest) = [c] ++ rest := rfl
      rw [hsplit]
      exact scanValue_append (scanValue_plainChar (h c (by simp)))
        (ih fun c2 hc2 => h c2 (by simp [hc2]))

end ArchivedChatFetcher

namespace ArchivedChatFetcher

theorem rdLoop_esc (acc : List Char) (c2 : Char) (rest2 : List Char) (depth : Int) :
    rdLoop acc ('\\' :: c2 :: rest2) depth true = rdLoop (c2 :: '\\' :: acc) rest2 depth true := by
  conv_lhs => rw [rdLoop.eq_def]
  rfl

theorem lexStr_nil : Json.lexStr [] = none := by
  conv_lhs => rw [Json.lexStr.eq_def]

theorem lexStr_quote (rest : List Char) : Json.lexStr ('"' :: rest) = some ([], rest) := by
  conv_lhs => rw [Json.lexStr.eq_def]
  rfl

theorem lexStr_esc (c2 : Char) (rest2 : List Char) :
    Json.lexStr ('\\' :: c2 :: rest2) =
      match Json.lexStr rest2 with
      | some (s, r) => some ('\\' :: c2 :: s, r)
      | none => none := by
  conv_lhs => rw [Json.lexStr.eq_def]
  rfl

theorem lexStr_esc_nil : Json.lexStr ['\\'] = none := by
  conv_lhs => rw [Json.lexStr.eq_def]
  rfl

theorem lexStr_other (c : Char) (rest : List Char) (hq : ¬ c = '"') (hb : ¬ c = '\\') :
    Json.lexStr (c :: rest) =
      match Json.lexStr rest with
      | some (s, r) => some (c :: s, r)
      | none => none := by
  conv_lhs => rw [Json.lexStr.eq_def]
  simp [hq, hb]

theorem lexStr_scan : ∀ (n : Nat) (cs : List Char), cs.length ≤ n →
    ∀ s rest, Json.lexStr cs = some (s, rest) →
      ∃ w, cs = w ++ rest ∧ ScanStrBody w := by
  intro n
  induction n with
  | zero =>
      intro cs hlen s rest hlex
      have : cs = [] := by
        cases cs with
        | nil => rfl
        | cons c r => simp at hlen
      subst this
      rw [lexStr_nil] at hlex
      exact absurd hlex (by simp)
  | succ n ih =>
      intro cs hlen s rest hlex
      cases cs with
      | nil => rw [lexStr_nil] at hlex; exact absurd hlex (by simp)
      | cons c rest0 =>
          by_cases hq : c = '"'
          · subst hq
            rw [lexStr_quote] at hlex
            simp only [Option.some.injEq, Prod.mk.injEq] at hlex
            refine ⟨['"'], by simp [hlex.2], ?_⟩
            intro t acc d
            rw [List.singleton_append, rdLoop_cons_inStr,
              if_neg (by decide : ¬ ('"' = '\\')), if_pos rfl]
            simp
          · by_cases hb : c = '\\'
            · subst hb
              cases rest0 with
              | nil => rw [lexStr_esc_nil] at hlex; exact absurd hlex (by simp)
              | cons c2 rest2 =>
                  rw [lexStr_esc] at hlex
                  rcases hlex2 : Json.lexStr rest2 with _ | ⟨s2, r2⟩ <;> rw [hlex2] at hlex
                  · exact absurd hlex (by simp)
                  · simp only [Option.some.injEq, Prod.mk.injEq] at hlex
                    obtain ⟨w2, hw2, hscan2⟩ :=
                      ih rest2 (by simp at hlen ⊢; omega) s2 r2 hlex2
                    refine ⟨'\\' :: c2 :: w2, by simp [hw2, ← hlex.2], ?_⟩
                    intro t acc d
                    have : ('\\' :: c2 :: w2) ++ t = '\\' :: c2 :: (w2 ++ t) := rfl
                    rw [this, rdLoop_esc, hscan2 t (c2 :: '\\' :: acc) d]
                    simp
            · rcases hlex2 : Json.lexStr rest0 with _ | ⟨s2, r2⟩ <;>
                rw [lexStr_other c rest0 hq hb, hlex2] at hlex
              · exact absurd hlex (by simp)
              · simp only [Option.some.injEq, Prod.mk.injEq] at hlex
                obtain ⟨w2, hw2, hscan2⟩ :=
                  ih rest0 (by simp at hlen ⊢; omega) s2 r2 hlex2
                refine ⟨c :: w2, by simp [hw2, ← hlex.2], ?_⟩
                intro t acc d
                have hstep : (c :: w2) ++ t = c :: (w2 ++ t) := rfl
                rw [hstep, rdLoop_cons_inStr, if_neg hb, if_neg hq,
                  hscan2 t (c :: acc) d]
                simp

theorem skipWs_decomp : ∀ cs : List Char,
    ∃ w, cs = w ++ Json.skipWs cs ∧ ∀ c ∈ w, Json.isWs c = true := by
  intro cs
  induction cs with
  | nil => exact ⟨[], rfl, by simp⟩
  | cons c rest ih =>
      by_cases h : Json.isWs c = true
      · obtain ⟨w, hw, hws⟩ := ih
        refine ⟨c :: w, ?_, ?_⟩
        · simp only [Json.skipWs, if_pos h]
          simpa using hw
        · intro c2 hc2
          rcases List.mem_cons.mp hc2 with rfl | hm
          · exact h
          · exact hws c2 hm
      · refine ⟨[], ?_, by simp⟩
        simp [Json.skipWs, h]

theorem skipWs_eq_self {cs : List Char} {c : Char} (hhead : cs.head? = some c)
    (hws : Json.isWs c = false) : Json.skipWs cs = cs := by
  cases cs with
  | nil => simp at hhead
  | cons c0 rest =>
      simp only [List.head?_cons, Option.some.injEq] at hhead
      subst hhead
      simp [Json.skipWs, hws]

theorem skipWs_eq_nil_allWs : ∀ cs : List Char, Json.skipWs cs = [] →
    ∀ c ∈ cs, Json.isWs c = true := by
  intro cs
  induction cs with
  | nil => intro _ c hc; simp at hc
  | cons c0 rest ih =>
      intro h c hc
      by_cases h0 : Json.isWs c0 = true
      · simp only [Json.skipWs, if_pos h0] at h
        rcases List.mem_cons.mp hc with rfl | hm
        · exact h0
        · exact ih h c hm
      · simp [Json.skipWs, h0] at h

theorem ws_plain {c : Char} (h : Json.isWs c = true) : plainChar c = true := by
  have h' : c = ' ' ∨ c = '\t' ∨ c = '\n' ∨ c = '\r' := by simpa [Json.isWs] using h
  rcases h' with rfl | rfl | rfl | rfl <;> decide

theorem scanValue_ws {w : List Char} (h : ∀ c ∈ w, Json.isWs c = true) : ScanValue w :=
  scanValue_plain fun c hc => ws_plain (h c hc)

theorem digit_plain {c : Char} (h : c.isDigit = true) : plainChar c = true := by
  have hne : ¬(c = '"' ∨ c = '{' ∨ c = '[' ∨ c = '}' ∨ c = ']') := by
    rintro (rfl | rfl | rfl | rfl | rfl) <;> exact absurd h (by decide)
  simpa [plainChar] using hne

theorem lexDigits_decomp : ∀ cs : List Char,
    cs = (Json.lexDigits cs).1 ++ (Json.lexDigits cs).2 ∧
      ∀ c ∈ (Json.lexDigits cs).1, c.isDigit = true := by
  intro cs
  induction cs with
  | nil => simp [Json.lexDigits]
  | cons c rest ih =>
      by_cases h : c.isDigit = true
      · simp only [Json.lexDigits, if_pos h]
        refine ⟨?_, ?_⟩
        · simpa using ih.1
        · intro c2 hc2
          rcases List.mem_cons.mp hc2 with rfl | hm
          · exact h
          · exact ih.2 c2 hm
      · simp [Json.lexDigits, h]

theorem lexFrac_decomp (cs : List Char) :
    cs = (Json.lexFrac cs).1 ++ (Json.lexFrac cs).2 ∧
      ∀ c ∈ (Json.lexFrac cs).1, plainChar c = true := by
  match cs with
  | [] => simp [Json.lexFrac]
  | c :: rest =>
    by_cases hdot : c = '.'
    · subst hdot
      simp only [Json.lexFrac]
      rcases hld : Json.lexDigits rest with ⟨fs, r⟩
      cases fs with
      | nil => simp
      | cons f fs' =>
          have hdec := lexDigits_decomp rest
          rw [hld] at hdec
          simp only []
          refine ⟨by simpa using hdec.1, ?_⟩
          intro c2 hc2
          rcases List.mem_cons.mp hc2 with rfl | hm
          · decide
          · exact digit_plain (hdec.2 c2 hm)
    · have : Json.lexFrac (c :: rest) = ([], c :: rest) := by
        conv_lhs => rw [Json.lexFrac.eq_def]
        cases c
        simp_all [Json.lexFrac]
      simp [this]

theorem lexExp_decomp (cs : List Char) :
    cs = (Json.lexExp cs).1 ++ (Json.lexExp cs).2 ∧
      ∀ c ∈ (Json.lexExp cs).1, plainChar c = true := by
  match cs with
  | [] => simp [Json.lexExp]
  | e :: rest =>
    by_cases he : e = 'e' ∨ e = 'E'
    · simp only [Json.lexExp, if_pos he]
      have heplain : plainChar e = true := by rcases he with rfl | rfl <;> decide
      match rest with
      | [] => simp
      | s :: rest2 =>
        by_cases hs : s = '+' ∨ s = '-'
        · simp only [if_pos hs]
          have hsplain : plainChar s = true := by rcases hs with rfl | rfl <;> decide
          rcases hld : Json.lexDigits rest2 with ⟨es, r⟩
          cases es with
          | nil => simp
          | cons e1 es' =>
              have hdec := lexDigits_decomp rest2
              rw [hld] at hdec
              simp only []
              refine ⟨by simpa using hdec.1, ?_⟩
              intro c2 hc2
              rcases List.mem_cons.mp hc2 with rfl | hm
              · exact heplain
              · rcases List.mem_cons.mp hm with rfl | hm2
                · exact hsplain
                · exact digit_plain (hdec.2 c2 hm2)
        · simp only [if_neg hs]
          rcases hld : Json.lexDigits (s :: rest2) with ⟨es, r⟩
          cases es with
          | nil => simp
          | cons e1 es' =>
              have hdec := lexDigits_decomp (s :: rest2)
              rw [hld] at hdec
              simp only []
              refine ⟨by simpa using hdec.1, ?_⟩
              intro c2 hc2
              rcases List.mem_cons.mp hc2 with rfl | hm
              · exact heplain
              · exact digit_plain (hdec.2 c2 hm)
    · simp [Json.lexExp, if_neg he]

theorem lexNum_decomp {cs lx rest : List Char} (h : Json.lexNum cs = some (lx, rest)) :
    cs = lx ++ rest ∧ ∀ c ∈ lx, plainChar c = true := by
  obtain ⟨neg, cs1, hneg, hnegp, hcs⟩ :
      ∃ neg cs1, (match cs with
          | c :: rest => if c = '-' then (['-'], rest) else ([], c :: rest)
          | [] => (([] : List Char), [])) = (neg, cs1) ∧
        (∀ c ∈ neg, plainChar c = true) ∧ cs = neg ++ cs1 := by
    match cs with
    | [] => exact ⟨[], [], rfl, by simp, rfl⟩
    | c :: r =>
        by_cases hc : c = '-'
        · subst hc
          exact ⟨['-'], r, by simp, by intro c hc; simp at hc; subst hc; decide, rfl⟩
        · exact ⟨[], c :: r, by simp [hc], by simp, rfl⟩
  rw [Json.lexNum.eq_def] at h
  simp only [hneg] at h
  rcases hld : Json.lexDigits cs1 with ⟨ds, cs2⟩
  rw [hld] at h
  have hdec := lexDigits_decomp cs1
  rw [hld] at hdec
  cases ds with
  | nil => simp at h
  | cons d ds' =>
      simp only [] at h
      rcases hfr : Json.lexFrac cs2 with ⟨frac, cs3⟩
      rw [hfr] at h
      have hfdec := lexFrac_decomp cs2
      rw [hfr] at hfdec
      rcases hex : Json.lexExp cs3 with ⟨ex, cs4⟩
      rw [hex] at h
      have hedec := lexExp_decomp cs3
      rw [hex] at hedec
      simp only [Option.some.injEq, Prod.mk.injEq] at h
      obtain ⟨hlx, hrest⟩ := h
      subst hlx hrest
      constructor
      · rw [hcs, hdec.1, hfdec.1, hedec.1]
        simp [List.append_assoc]
      · intro c hc
        simp only [List.mem_append] at hc
        rcases hc with ((hc1 | hc2) | hc3) | hc4
        · exact hnegp c hc1
        · exact digit_plain (hdec.2 c hc2)
        · exact hfdec.2 c hc3
        · exact hedec.2 c hc4

end ArchivedChatFetcher

namespace ArchivedChatFetcher

theorem head?_decomp {l : List Char} {a : Char} (h : l.head? = some a) :
    l = a :: l.tail := by
  cases l with
  | nil => simp at h
  | cons x xs =>
      simp only [List.head?_cons, Option.some.injEq] at h
      simp [h]

theorem dropLit_decomp : ∀ (lit cs rest : List Char), Json.dropLit lit cs = some rest →
    cs = lit ++ rest := by
  intro lit
  induction lit with
  | nil =>
      intro cs rest h
      simp only [Json.dropLit, Option.some.injEq] at h
      simp [h]
  | cons l ls ih =>
      intro cs rest h
      cases cs with
      | nil => simp [Json.dropLit] at h
      | cons c cs' =>
          by_cases hc : c = l
          · simp only [Json.dropLit, if_pos hc] at h
            rw [hc, ih cs' rest h]
            simp
          · simp [Json.dropLit, if_neg hc] at h

-- The text consumed by a successful parse of one JSON value (resp. of
-- the members/elements tail of an object/array, through its closing
-- bracket) is exactly the text the string-aware depth scanner of
-- `rawDecode` passes over without attempting a parse (resp. with the
-- parse attempt exactly at its final closing bracket when at depth 1).
set_option maxHeartbeats 3000000 in
theorem parse_scan : ∀ fuel : Nat,
    (∀ cs v rest, Json.parseVal fuel cs = some (v, rest) →
      ∃ w, cs = w ++ rest ∧ ScanValue w) ∧
    (∀ cs vs rest, Json.parseElems fuel cs = some (vs, rest) →
      ∃ w, cs = w ++ rest ∧ ScanClose w) ∧
    (∀ cs ms rest, Json.parseMems fuel cs = some (ms, rest) →
      ∃ w, cs = w ++ rest ∧ ScanClose w) := by
  intro fuel
  induction fuel with
  | zero =>
      refine ⟨?_, ?_, ?_⟩ <;> intro cs a rest h <;>
        simp [Json.parseVal, Json.parseElems, Json.parseMems] at h
  | succ fuel ih =>
      obtain ⟨ihv, ihe, ihm⟩ := ih
      refine ⟨?_, ?_, ?_⟩
      · -- parseVal
        intro cs v rest hpv
        cases cs with
        | nil => simp [Json.parseVal] at hpv
        | cons c rest0 =>
          rw [Json.parseVal.eq_def] at hpv
          simp only [] at hpv
          obtain ⟨ws, hwseq, hwsall⟩ := skipWs_decomp rest0
          by_cases hc1 : c = '{'
          · rw [if_pos hc1] at hpv
            subst hc1
            by_cases hh : (Json.skipWs rest0).head? = some '}'
            · rw [if_pos hh] at hpv
              simp only [Option.some.injEq, Prod.mk.injEq] at hpv
              obtain ⟨hv, hrest⟩ := hpv
              subst hrest
              obtain ⟨tl, htl⟩ : ∃ tl, Json.skipWs rest0 = '}' :: tl :=
                ⟨_, head?_decomp hh⟩
              refine ⟨'{' :: (ws ++ ['}']), ?_, ?_⟩
              · rw [htl, hwseq, htl]
                simp
              · exact scanValue_openClose (Or.inl rfl)
                  (scanValue_close (scanValue_ws hwsall) (scanClose_single (Or.inl rfl)))
            · rw [if_neg hh] at hpv
              split at hpv
              · rename_i ms rest1 heqm
                simp only [Option.some.injEq, Prod.mk.injEq] at hpv
                obtain ⟨hv, hrest⟩ := hpv
                subst hrest
                obtain ⟨wm, hwm, hscanm⟩ := ihm _ ms rest1 heqm
                refine ⟨'{' :: (ws ++ wm), ?_, ?_⟩
                · rw [hwseq, hwm]
                  simp
                · exact scanValue_openClose (Or.inl rfl)
                    (scanValue_close (scanValue_ws hwsall) hscanm)
              · simp at hpv
          · rw [if_neg hc1] at hpv
            by_cases hc2 : c = '['
            · rw [if_pos hc2] at hpv
              subst hc2
              by_cases hh : (Json.skipWs rest0).head? = some ']'
              · rw [if_pos hh] at hpv
                simp only [Option.some.injEq, Prod.mk.injEq] at hpv
                obtain ⟨hv, hrest⟩ := hpv
                subst hrest
                obtain ⟨tl, htl⟩ : ∃ tl, Json.skipWs rest0 = ']' :: tl :=
                  ⟨_, head?_decomp hh⟩
                refine ⟨'[' :: (ws ++ [']']), ?_, ?_⟩
                · rw [htl, hwseq, htl]
                  simp
                · exact scanValue_openClose (Or.inr rfl)
                    (scanValue_close (scanValue_ws hwsall) (scanClose_single (Or.inr rfl)))
              · rw [if_neg hh] at hpv
                split at hpv
                · rename_i vs rest1 heqe
                  simp only [Option.some.injEq, Prod.mk.injEq] at hpv
                  obtain ⟨hv, hrest⟩ := hpv
                  subst hrest
                  obtain ⟨we, hwe, hscane⟩ := ihe _ vs rest1 heqe
                  refine ⟨'[' :: (ws ++ we), ?_, ?_⟩
                  · rw [hwseq, hwe]
                    simp
                  · exact scanValue_openClose (Or.inr rfl)
                      (scanValue_close (scanValue_ws hwsall) hscane)
                · simp at hpv
            · rw [if_neg hc2] at hpv
              by_cases hc3 : c = '"'
              · rw [if_pos hc3] at hpv
                subst hc3
                split at hpv
                · rename_i s1 rest1 heq
                  simp only [Option.some.injEq, Prod.mk.injEq] at hpv
                  obtain ⟨hv, hrest⟩ := hpv
                  subst hrest
                  obtain ⟨wstr, hsplit, hscanstr⟩ :=
                    lexStr_scan rest0.length rest0 le_rfl s1 rest1 heq
                  exact ⟨'"' :: wstr, by simp [hsplit], scanValue_quote hscanstr⟩
                · simp at hpv
              · rw [if_neg hc3] at hpv
                by_cases hc4 : c = 't'
                · rw [if_pos hc4] at hpv
                  subst hc4
                  split at hpv
                  · rename_i rest1 heq
                    simp only [Option.some.injEq, Prod.mk.injEq] at hpv
                    obtain ⟨hv, hrest⟩ := hpv
                    subst hrest
                    refine ⟨['t', 'r', 'u', 'e'], by simp [dropLit_decomp _ _ _ heq], ?_⟩
                    exact scanValue_plain (by intro c2 hc2m; fin_cases hc2m <;> decide)
                  · simp at hpv
                · rw [if_neg hc4] at hpv
                  by_cases hc5 : c = 'f'
                  · rw [if_pos hc5] at hpv
                    subst hc5
                    split at hpv
                    · rename_i rest1 heq
                      simp only [Option.some.injEq, Prod.mk.injEq] at hpv
                      obtain ⟨hv, hrest⟩ := hpv
                      subst hrest
                      refine ⟨['f', 'a', 'l', 's', 'e'],
                        by simp [dropLit_decomp _ _ _ heq], ?_⟩
                      exact scanValue_plain (by intro c2 hc2m; fin_cases hc2m <;> decide)
                    · simp at hpv
                  · rw [if_neg hc5] at hpv
                    by_cases hc6 : c = 'n'
                    · rw [if_pos hc6] at hpv
                      subst hc6
                      split at hpv
                      · rename_i rest1 heq
                        simp only [Option.some.injEq, Prod.mk.injEq] at hpv
                        obtain ⟨hv, hrest⟩ := hpv
                        subst hrest
                        refine ⟨['n', 'u', 'l', 'l'],
                          by simp [dropLit_decomp _ _ _ heq], ?_⟩
                        exact scanValue_plain (by intro c2 hc2m; fin_cases hc2m <;> decide)
                      · simp at hpv
                    · rw [if_neg hc6] at hpv
                      split at hpv
                      · rename_i lx rest1 heq
                        simp only [Option.some.injEq, Prod.mk.injEq] at hpv
                        obtain ⟨hv, hrest⟩ := hpv
                        subst hrest
                        obtain ⟨hdecomp, hplain⟩ := lexNum_decomp heq
                        exact ⟨lx, hdecomp, scanValue_plain hplain⟩
                      · simp at hpv
      · -- parseElems
        intro cs vs rest hpe
        rw [Json.parseElems.eq_def] at hpe
        simp only [] at hpe
        obtain ⟨ws1, hws1eq, hws1all⟩ := skipWs_decomp cs
        split at hpe
        · simp at hpe
        · rename_i v1 rest' heqv
          obtain ⟨wv, hwv, hscanv⟩ := ihv _ v1 rest' heqv
          obtain ⟨ws2, hws2eq, hws2all⟩ := skipWs_decomp rest'
          by_cases hcm : (Json.skipWs rest').head? = some ','
          · rw [if_pos hcm] at hpe
            obtain ⟨tl, htl⟩ : ∃ tl, Json.skipWs rest' = ',' :: tl :=
              ⟨_, head?_decomp hcm⟩
            rw [htl] at hpe
            simp only [List.tail_cons] at hpe
            split at hpe
            · rename_i vs' rest2 heqe
              simp only [Option.some.injEq, Prod.mk.injEq] at hpe
              obtain ⟨hvs, hrest⟩ := hpe
              subst hrest
              obtain ⟨we, hwe, hscane⟩ := ihe _ vs' rest2 heqe
              refine ⟨ws1 ++ (wv ++ (ws2 ++ (',' :: we))), ?_, ?_⟩
              · rw [hws1eq, hwv, hws2eq, htl, hwe]
                simp
              · exact scanValue_close (scanValue_ws hws1all)
                  (scanValue_close hscanv
                    (scanValue_close (scanValue_ws hws2all)
                      (scanValue_close (scanValue_plainChar (by decide)) hscane)))
            · simp at hpe
          · rw [if_neg hcm] at hpe
            by_cases hcb : (Json.skipWs rest').head? = some ']'
            · rw [if_pos hcb] at hpe
              simp only [Option.some.injEq, Prod.mk.injEq] at hpe
              obtain ⟨hvs, hrest⟩ := hpe
              subst hrest
              obtain ⟨tl, htl⟩ : ∃ tl, Json.skipWs rest' = ']' :: tl :=
                ⟨_, head?_decomp hcb⟩
              refine ⟨ws1 ++ (wv ++ (ws2 ++ [']'])), ?_, ?_⟩
              · rw [htl, hws1eq, hwv, hws2eq, htl]
                simp
              · exact scanValue_close (scanValue_ws hws1all)
                  (scanValue_close hscanv
                    (scanValue_close (scanValue_ws hws2all)
                      (scanClose_single (Or.inr rfl))))
            · rw [if_neg hcb] at hpe
              simp at hpe
      · -- parseMems
        intro cs ms rest hpm
        rw [Json.parseMems.eq_def] at hpm
        simp only [] at hpm
        obtain ⟨ws1, hws1eq, hws1all⟩ := skipWs_decomp cs
        by_cases hh1 : (Json.skipWs cs).head? = some '"'
        · rw [if_pos hh1] at hpm
          obtain ⟨tl1, htl1⟩ : ∃ tl, Json.skipWs cs = '"' :: tl :=
            ⟨_, head?_decomp hh1⟩
          rw [htl1] at hpm
          simp only [List.tail_cons] at hpm
          split at hpm
          · simp at hpm
          · rename_i k rest1 heqk
            obtain ⟨wk, hwk, hscank⟩ := lexStr_scan tl1.length tl1 le_rfl k rest1 heqk
            obtain ⟨ws2, hws2eq, hws2all⟩ := skipWs_decomp rest1
            by_cases hh2 : (Json.skipWs rest1).head? = some ':'
            · rw [if_pos hh2] at hpm
              obtain ⟨tl2, htl2⟩ : ∃ tl, Json.skipWs rest1 = ':' :: tl :=
                ⟨_, head?_decomp hh2⟩
              rw [htl2] at hpm
              simp only [List.tail_cons] at hpm
              obtain ⟨ws3, hws3eq, hws3all⟩ := skipWs_decomp tl2
              split at hpm
              · simp at hpm
              · rename_i v1 rest3 heqv
                obtain ⟨wv, hwv, hscanv⟩ := ihv _ v1 rest3 heqv
                obtain ⟨ws4, hws4eq, hws4all⟩ := skipWs_decomp rest3
                by_cases hh4 : (Json.skipWs rest3).head? = some ','
                · rw [if_pos hh4] at hpm
                  obtain ⟨tl4, htl4⟩ : ∃ tl, Json.skipWs rest3 = ',' :: tl :=
                    ⟨_, head?_decomp hh4⟩
                  rw [htl4] at hpm
                  simp only [List.tail_cons] at hpm
                  split at hpm
                  · rename_i ms' rest5 heqm
                    simp only [Option.some.injEq, Prod.mk.injEq] at hpm
                    obtain ⟨hms, hrest⟩ := hpm
                    subst hrest
                    obtain ⟨wm, hwm, hscanm⟩ := ihm _ ms' rest5 heqm
                    refine ⟨ws1 ++ ('"' :: (wk ++ (ws2 ++ (':' :: (ws3 ++ (wv ++ (ws4 ++ (',' :: wm)))))))), ?_, ?_⟩
                    · rw [hws1eq, htl1, hwk, hws2eq, htl2, hws3eq, hwv, hws4eq,
                        htl4, hwm]
                      simp
                    · refine scanValue_close (scanValue_ws hws1all) ?_
                      refine scanValue_close (scanValue_quote hscank) ?_
                      refine scanValue_close (scanValue_ws hws2all) ?_
                      refine scanValue_close (scanValue_plainChar (by decide)) ?_
                      refine scanValue_close (scanValue_ws hws3all) ?_
                      refine scanValue_close hscanv ?_
                      refine scanValue_close (scanValue_ws hws4all) ?_
                      exact scanValue_close (scanValue_plainChar (by decide)) hscanm
                  · simp at hpm
                · rw [if_neg hh4] at hpm
                  by_cases hh5 : (Json.skipWs rest3).head? = some '}'
                  · rw [if_pos hh5] at hpm
                    simp only [Option.some.injEq, Prod.mk.injEq] at hpm
                    obtain ⟨hms, hrest⟩ := hpm
                    subst hrest
                    obtain ⟨tl4, htl4⟩ : ∃ tl, Json.skipWs rest3 = '}' :: tl :=
                      ⟨_, head?_decomp hh5⟩
                    refine ⟨ws1 ++ ('"' :: (wk ++ (ws2 ++ (':' :: (ws3 ++ (wv ++ (ws4 ++ ['}']))))))), ?_, ?_⟩
                    · rw [htl4, hws1eq, htl1, hwk, hws2eq, htl2, hws3eq, hwv,
                        hws4eq, htl4]
                      simp
                    · refine scanValue_close (scanValue_ws hws1all) ?_
                      refine scanValue_close (scanValue_quote hscank) ?_
                      refine scanValue_close (scanValue_ws hws2all) ?_
                      refine scanValue_close (scanValue_plainChar (by decide)) ?_
                      refine scanValue_close (scanValue_ws hws3all) ?_
                      refine scanValue_close hscanv ?_
                      refine scanValue_close (scanValue_ws hws4all) ?_
                      exact scanClose_single (Or.inl rfl)
                  · rw [if_neg hh5] at hpm
                    simp at hpm
            · rw [if_neg hh2] at hpm
              simp at hpm
        · rw [if_neg hh1] at hpm
          simp at hpm

end ArchivedChatFetcher

namespace ArchivedChatFetcher

/-- A successful `Json.parse` of a document that starts with an opening
bracket and ends with a closing bracket is an exact `parseVal` run: no
leading or trailing whitespace remains. -/
theorem parse_exact {p : List Char} {v : Json.Value}
    (hparse : Json.parse p = some v)
    (hhead : p.head? = some '{' ∨ p.head? = some '[')
    (hlast : p.getLast? = some '}' ∨ p.getLast? = some ']') :
    Json.parseVal (2 * p.length + 2) p = some (v, []) := by
  have hsw : Json.skipWs p = p := by
    rcases hhead with hh | hh <;> exact skipWs_eq_self hh (by decide)
  rw [Json.parse, hsw] at hparse
  rcases hpv : Json.parseVal (2 * p.length + 2) p with _ | ⟨v0, r⟩
  · rw [hpv] at hparse
    simp at hparse
  · rw [hpv] at hparse
    simp only [] at hparse
    by_cases hr : Json.skipWs r = []
    · rw [if_pos hr] at hparse
      simp only [Option.some.injEq] at hparse
      subst hparse
      have hrnil : r = [] := by
        by_contra hne
        obtain ⟨w, hw, _⟩ := (parse_scan (2 * p.length + 2)).1 p v0 r hpv
        have hlast2 : p.getLast? = r.getLast? := by
          rw [hw]
          exact List.getLast?_append_of_ne_nil w hne
        rcases hgl : r.getLast? with _ | c
        · exact hne (List.getLast?_eq_none_iff.mp hgl)
        · have hcin : c ∈ r := List.mem_of_getLast?_eq_some hgl
          have hcws : Json.isWs c = true := skipWs_eq_nil_allWs r hr c hcin
          rw [hlast2, hgl] at hlast
          rcases hlast with hl | hl <;>
            · simp only [Option.some.injEq] at hl
              subst hl
              exact absurd hcws (by decide)
      rw [hrnil]
    · rw [if_neg hr] at hparse
      simp at hparse

/-- The scan of `rawDecode` applied to an exactly parsed value text with
arbitrary trailing content: the parse attempt fires at the value's final
closing bracket and succeeds. -/
theorem rawDecode_of_parseVal (fuel : Nat) (p t : List Char) (v : Json.Value)
    (hpv : Json.parseVal fuel p = some (v, []))
    (hparse : Json.parse p = some v)
    (hhead : p.head? = some '{' ∨ p.head? = some '[') :
    rawDecode (p ++ t) = some (v, p.length) := by
  cases p with
  | nil => simp at hhead
  | cons c rest0 =>
    cases fuel with
    | zero => simp [Json.parseVal] at hpv
    | succ fuel =>
      rw [Json.parseVal.eq_def] at hpv
      simp only [] at hpv
      obtain ⟨ws, hwseq, hwsall⟩ := skipWs_decomp rest0
      have hc : c = '{' ∨ c = '[' := by
        rcases hhead with hh | hh <;> simp only [List.head?_cons,
          Option.some.injEq] at hh <;> [exact Or.inl hh; exact Or.inr hh]
      have hguard : rawDecode ((c :: rest0) ++ t) = rdLoop [] ((c :: rest0) ++ t) 0 false := by
        rcases hc with rfl | rfl <;> simp [rawDecode]
      rcases hc with rfl | rfl
      · -- object
        rw [if_pos rfl] at hpv
        rw [hguard, List.cons_append, rdLoop_cons,
          if_neg (by decide : ¬ ('{' = '"')), if_pos (Or.inl rfl),
          (by norm_num : (0 : Int) + 1 = 1)]
        by_cases hh : (Json.skipWs rest0).head? = some '}'
        · rw [if_pos hh] at hpv
          simp only [Option.some.injEq, Prod.mk.injEq] at hpv
          obtain ⟨hv, htail⟩ := hpv
          have htl : Json.skipWs rest0 = ['}'] := by
            rw [head?_decomp hh, htail]
          rw [hwseq, htl]
          have harr : (ws ++ ['}']) ++ t = ws ++ ('}' :: t) := by simp
          rw [harr, scanValue_ws hwsall ('}' :: t) ['{'] 1 (by omega),
            rdLoop_cons, if_neg (by decide : ¬ ('}' = '"')),
            if_neg (by decide : ¬ ('}' = '{' ∨ '}' = '[')),
            if_pos (Or.inl rfl), if_pos (by omega : (1 : Int) - 1 = 0)]
          have hprev : ('}' :: (ws.reverse ++ ['{'])).reverse = '{' :: (ws ++ ['}']) := by
            simp
          rw [hprev]
          have hp2 : '{' :: (ws ++ ['}']) = '{' :: rest0 := by rw [hwseq, htl]
          rw [hp2, hparse, ← hv]
          have hlen : rest0.length = ws.length + 1 := by
            conv_lhs => rw [hwseq, htl]
            simp
          simp [hlen]
        · rw [if_neg hh] at hpv
          rcases heqm : Json.parseMems fuel (Json.skipWs rest0) with _ | ⟨ms, rest1⟩ <;>
            rw [heqm] at hpv
          · simp at hpv
          · simp only [Option.some.injEq, Prod.mk.injEq] at hpv
            obtain ⟨hv, hrest1⟩ := hpv
            subst hrest1
            obtain ⟨wm, hwm, hscanm⟩ := (parse_scan fuel).2.2 _ ms [] heqm
            rw [List.append_nil] at hwm
            rw [hwseq, hwm]
            have harr : (ws ++ wm) ++ t = ws ++ (wm ++ t) := by simp
            rw [harr, scanValue_ws hwsall (wm ++ t) ['{'] 1 (by omega),
              hscanm t (ws.reverse ++ ['{']) 1 (by omega), if_pos rfl]
            have hprev : (ws.reverse ++ ['{']).reverse ++ wm = '{' :: (ws ++ wm) := by
              simp
            rw [hprev]
            have hp2 : '{' :: (ws ++ wm) = '{' :: rest0 := by rw [hwseq, hwm]
            rw [hp2, hparse]
      · -- array
        rw [if_neg (by decide : ¬ ('[' = '{')), if_pos rfl] at hpv
        rw [hguard, List.cons_append, rdLoop_cons,
          if_neg (by decide : ¬ ('[' = '"')), if_pos (Or.inr rfl),
          (by norm_num : (0 : Int) + 1 = 1)]
        by_cases hh : (Json.skipWs rest0).head? = some ']'
        · rw [if_pos hh] at hpv
          simp only [Option.some.injEq, Prod.mk.injEq] at hpv
          obtain ⟨hv, htail⟩ := hpv
          have htl : Json.skipWs rest0 = [']'] := by
            rw [head?_decomp hh, htail]
          rw [hwseq, htl]
          have harr : (ws ++ [']']) ++ t = ws ++ (']' :: t) := by simp
          rw [harr, scanValue_ws hwsall (']' :: t) ['['] 1 (by omega),
            rdLoop_cons, if_neg (by decide : ¬ (']' = '"')),
            if_neg (by decide : ¬ (']' = '{' ∨ ']' = '[')),
            if_pos (Or.inr rfl), if_pos (by omega : (1 : Int) - 1 = 0)]
          have hprev : (']' :: (ws.reverse ++ ['['])).reverse = '[' :: (ws ++ [']']) := by
            simp
          rw [hprev]
          have hp2 : '[' :: (ws ++ [']']) = '[' :: rest0 := by rw [hwseq, htl]
          rw [hp2, hparse, ← hv]
          have hlen : rest0.length = ws.length + 1 := by
            conv_lhs => rw [hwseq, htl]
            simp
          simp [hlen]
        · rw [if_neg hh] at hpv
          rcases heqe : Json.parseElems fuel (Json.skipWs rest0) with _ | ⟨vs, rest1⟩ <;>
            rw [heqe] at hpv
          · simp at hpv
          · simp only [Option.some.injEq, Prod.mk.injEq] at hpv
            obtain ⟨hv, hrest1⟩ := hpv
            subst hrest1
            obtain ⟨we, hwe, hscane⟩ := (parse_scan fuel).2.1 _ vs [] heqe
            rw [List.append_nil] at hwe
            rw [hwseq, hwe]
            have harr : (ws ++ we) ++ t = ws ++ (we ++ t) := by simp
            rw [harr, scanValue_ws hwsall (we ++ t) ['['] 1 (by omega),
              hscane t (ws.reverse ++ ['[']) 1 (by omega), if_pos rfl]
            have hprev : (ws.reverse ++ ['[']).reverse ++ we = '[' :: (ws ++ we) := by
              simp
            rw [hprev]
            have hp2 : '[' :: (ws ++ we) = '[' :: rest0 := by rw [hwseq, hwe]
            rw [hp2, hparse]

/-- **C3**: for every input that consists of a valid JSON object or
array — delimited by its brackets — followed by arbitrary trailing
content, `rawDecode` returns the parsed value of that prefix together
with the index (character count) where the prefix ends; and the prefix
is unique among bracket-delimited valid-JSON prefixes of the input, so
the returned one is in particular the shortest.  The scan's depth
counting is string-aware by construction of `rdLoop` (`p` may contain
brace and bracket characters inside string literals, as the witness
exercises). -/
theorem C3_rawDecode_correct {p : List Char} {v : Json.Value}
    (hparse : Json.parse p = some v)
    (hhead : p.head? = some '{' ∨ p.head? = some '[')
    (hlast : p.getLast? = some '}' ∨ p.getLast? = some ']') :
    (∀ t, rawDecode (p ++ t) = some (v, p.length)) ∧
    (∀ t q t2 v2, q ++ t2 = p ++ t → Json.parse q = some v2 →
      q.getLast? = some '}' ∨ q.getLast? = some ']' →
      q = p ∧ v2 = v) := by
  have hmain : ∀ t, rawDecode (p ++ t) = some (v, p.length) := fun t =>
    rawDecode_of_parseVal (2 * p.length + 2) p t v
      (parse_exact hparse hhead hlast) hparse hhead
  refine ⟨hmain, ?_⟩
  intro t q t2 v2 hq hparse2 hlast2
  have hqne : q ≠ [] := by
    intro hnil
    rw [hnil] at hparse2
    have : Json.parse ([] : List Char) = none := rfl
    rw [this] at hparse2
    exact Option.noConfusion hparse2
  have hpne : p ≠ [] := by
    intro hnil
    rw [hnil] at hhead
    rcases hhead with hh | hh <;> exact Option.noConfusion hh
  have hhead2 : q.head? = some '{' ∨ q.head? = some '[' := by
    have h1 : (q ++ t2).head? = q.head? := by
      cases q with
      | nil => exact absurd rfl hqne
      | cons c cs => rfl
    have h2 : (p ++ t).head? = p.head? := by
      cases p with
      | nil => exact absurd rfl hpne
      | cons c cs => rfl
    rw [← h1, hq, h2]
    exact hhead
  have hq2 : rawDecode (p ++ t) = some (v2, q.length) := by
    rw [← hq]
    exact rawDecode_of_parseVal (2 * q.length + 2) q t2 v2
      (parse_exact hparse2 hhead2 hlast2) hparse2 hhead2
  rw [hmain t] at hq2
  simp only [Option.some.injEq, Prod.mk.injEq] at hq2
  obtain ⟨hv2, hlen⟩ := hq2
  exact ⟨(List.append_inj hq hlen.symm).1, hv2.symm⟩

/-- **C3 witness**: the concrete document `\x7b"a":"\x7d"\x7d` — nine
characters, with a closing brace inside the string literal — followed by
trailing garbage: `rawDecode` returns the parsed object and end index 9,
and no shorter bracket-delimited prefix parses. -/
theorem C3_rawDecode_correct_witness :
    rawDecode (['{', '"', 'a', '"', ':', '"', '}', '"', '}'] ++
        ['g', '{', 'x']) =
      some (Json.Value.obj [(['a'], Json.Value.str ['}'])], 9) :=
  (@C3_rawDecode_correct ['{', '"', 'a', '"', ':', '"', '}', '"', '}']
    (Json.Value.obj [(['a'], Json.Value.str ['}'])])
    rfl (Or.inl rfl) (by simp)).1 ['g', '{', 'x']

end ArchivedChatFetcher

namespace Entry

/-- **C1** (counterexample): start from the initial state, load video A,
load video B (so `currentVideoUrl` is B's url), then let A's archived
fetch — still in flight across the second load — resolve with A's
message: the stored chat data afterwards is A's late-arriving payload,
not B's (empty) state.  Nothing on the resolve path compares the
originating url with `currentVideoUrl`. -/
theorem C1_counterexample :
    (archivedChatDownloaded
        (onFileLoaded
          (onFileLoaded ⟨none, [], false, none, false⟩
            (some "https://youtu.be/A") true true)
          (some "https://youtu.be/B") true true)
        "https://youtu.be/A"
        [{ id := "a1", type := .text, timestamp := 5, author := "alice",
           message := "hi" }]).chatData =
      [{ id := "a1", type := .text, timestamp := 5, author := "alice",
         message := "hi" }] ∧
    (onFileLoaded
        (onFileLoaded ⟨none, [], false, none, false⟩
          (some "https://youtu.be/A") true true)
        (some "https://youtu.be/B") true true).currentVideoUrl =
      some "https://youtu.be/B" :=
  ⟨rfl, rfl⟩

/-- **C1** (amended): what the orchestrator actually does.  A resolving
archived fetch stores its parsed messages into `chatData`
unconditionally — for every state, every originating url and every
payload — leaving `currentVideoUrl` unchanged; so a late result for a
superseded video is displayed, not discarded.  A file-load event does
stop live-chat polling (timer cleared, live flag and metadata reset) but
leaves the previous `chatData` in place. -/
theorem C1_amended_store_unconditional :
    (∀ (s : PluginState) (forUrl : String) (msgs : List Schemas.ChatMessage),
      (archivedChatDownloaded s forUrl msgs).chatData = msgs ∧
      (archivedChatDownloaded s forUrl msgs).currentVideoUrl = s.currentVideoUrl) ∧
    (∀ (s : PluginState) (url : Option String) (yt vid : Bool),
      (onFileLoaded s url yt vid).liveChatPollingTimer = false ∧
      (onFileLoaded s url yt vid).isLiveStream = false ∧
      (onFileLoaded s url yt vid).liveChatMetadata = none ∧
      (onFileLoaded s url yt vid).chatData = s.chatData) := by
  refine ⟨fun s forUrl msgs => ⟨rfl, rfl⟩, fun s url yt vid => ?_⟩
  rcases url with _ | u <;> cases yt <;> cases vid <;>
    exact ⟨rfl, rfl, rfl, rfl⟩

end Entry

namespace LiveChatFetcher

/-- A string append with a non-empty left part is non-empty. -/
theorem append_ne_empty_left (s t : String) (h : s ≠ "") : s ++ t ≠ "" := by
  intro he
  apply h
  have hd := congrArg String.data he
  rw [String.data_append] at hd
  rcases List.append_eq_nil.mp hd with ⟨h1, _⟩
  cases s
  simp_all

/-- **C2** (counterexample): an HTTP 500 response whose body is the
valid JSON document `\x7b\x7d` makes the live-chat poll succeed — the
poll's outcome cannot depend on the HTTP status code, which the curl
invocation (no `--fail`) never surfaces.  Conversely an HTTP 200
response whose body is the valid JSON document `null` fails: the
response processing throws on `null.continuationContents` and the outer
`catch` returns a failure. -/
theorem C2_counterexample :
    fetchLiveChat (curlExec (.received ⟨500, "\x7b\x7d"⟩)) =
      .ok (Json.Value.obj []) ∧
    fetchLiveChat (curlExec (.received ⟨200, "null"⟩)) =
      .failure liveChatCatchDiag ∧
    ¬ (200 ≤ 500 ∧ 500 < 300) :=
  ⟨rfl, rfl, by decide⟩

/-- **C2** (amended): the live-chat poll fails exactly on transport
failure (non-zero curl exit status, or a thrown exec error), an empty
response body, a body `JSON.parse` rejects, or a parsed document whose
processing throws into the outer `catch` — each with its diagnostic
string; any received HTTP response whose body parses to a document the
processing handles without throwing yields success, and the outcome for
a received response never depends on its status code. -/
theorem C2_amended_poll_outcome :
    (∀ (st st2 : Nat) (body : String),
      fetchLiveChat (curlExec (.received ⟨st, body⟩)) =
        fetchLiveChat (curlExec (.received ⟨st2, body⟩))) ∧
    (∀ (code : Int) (diag : String), code ≠ 0 →
      fetchLiveChat (curlExec (.failed code diag)) =
        .failure ("curl failed with status " ++ toString code ++ ": " ++ diag)) ∧
    (∀ msg : String,
      fetchLiveChat (.thrown msg) = .failure ("curl error: " ++ msg)) ∧
    (∀ st : Nat,
      fetchLiveChat (curlExec (.received ⟨st, ""⟩)) =
        .failure "Empty response from API") ∧
    (∀ (st : Nat) (body : String), body ≠ "" → Json.parse body.data = none →
      fetchLiveChat (curlExec (.received ⟨st, body⟩)) =
        .failure "Failed to parse API response") ∧
    (∀ (st : Nat) (body : String) (v : Json.Value),
      Json.parse body.data = some v → jsThrows v = true →
      fetchLiveChat (curlExec (.received ⟨st, body⟩)) =
        .failure liveChatCatchDiag) ∧
    (∀ (st : Nat) (body : String) (v : Json.Value),
      Json.parse body.data = some v → jsThrows v = false →
      fetchLiveChat (curlExec (.received ⟨st, body⟩)) = .ok v) := by
  have hrecv : ∀ (st : Nat) (body : String),
      curlPost (curlExec (.received ⟨st, body⟩)) = ⟨true, body, none⟩ :=
    fun st body => rfl
  have hjs : ∀ s : String, s ≠ "" →
      ArchivedChatFetcher.jsOr (some s) "API request failed" = s := by
    intro s hs
    rw [ArchivedChatFetcher.jsOr, if_neg hs]
  have hbody : ∀ (body : String) (v : Json.Value),
      Json.parse body.data = some v → body ≠ "" := by
    intro body v hp hbe
    rw [hbe] at hp
    rw [(rfl : ("" : String).data = []),
      (rfl : Json.parse ([] : List Char) = none)] at hp
    exact Option.noConfusion hp
  refine ⟨fun st st2 body => ?_, fun code diag hc => ?_, fun msg => ?_,
    fun st => ?_, fun st body hb hp => ?_, fun st body v hp ht => ?_,
    fun st body v hp ht => ?_⟩
  · rw [fetchLiveChat, fetchLiveChat, hrecv, hrecv]
  · have hpost : curlPost (curlExec (.failed code diag)) =
        ⟨false, "",
          some ("curl failed with status " ++ toString code ++ ": " ++ diag)⟩ := by
      have h1 : curlExec (.failed code diag) = .ok ⟨code, "", diag⟩ := rfl
      rw [h1]
      simp only [curlPost]
      rw [if_pos hc]
    rw [fetchLiveChat, hpost, if_pos rfl]
    rw [hjs _ (append_ne_empty_left _ _
      (append_ne_empty_left _ _
        (append_ne_empty_left _ _
          (by decide : ("curl failed with status " : String) ≠ ""))))]
  · have hpost : curlPost (.thrown msg) =
        ⟨false, "", some ("curl error: " ++ msg)⟩ := rfl
    rw [fetchLiveChat, hpost, if_pos rfl]
    rw [hjs _ (append_ne_empty_left _ _ (by decide : ("curl error: " : String) ≠ ""))]
  · rw [fetchLiveChat, hrecv,
      if_neg (by decide : ¬ ((true : Bool) = false)), if_pos rfl]
  · rw [fetchLiveChat, hrecv,
      if_neg (by decide : ¬ ((true : Bool) = false)), if_neg hb, hp]
  · rw [fetchLiveChat, hrecv,
      if_neg (by decide : ¬ ((true : Bool) = false)), if_neg (hbody body v hp), hp]
    show (if jsThrows v = true then LiveChatResult.failure liveChatCatchDiag
        else LiveChatResult.ok v) = _
    rw [if_pos ht]
  · rw [fetchLiveChat, hrecv,
      if_neg (by decide : ¬ ((true : Bool) = false)), if_neg (hbody body v hp), hp]
    show (if jsThrows v = true then LiveChatResult.failure liveChatCatchDiag
        else LiveChatResult.ok v) = _
    rw [ht, if_neg (by decide : ¬ ((false : Bool) = true))]

end LiveChatFetcher
